import Mathlib

/-!
# zookeeper-operator: the server role and role-group reconcilers

A shallow embedding of `internal/clustercontroller/server.go`.

Go pointers and maps are references into a store (`Heap`), so that what a call
writes, and what it leaves alone, can be stated.  A nil pointer dereference or
any other run-time panic is a `Fault`.  The outcome of reconciling a child
resource in the cluster is not computed by this file: it is supplied by an
environment (`Env`).
-/

namespace Clustercontroller

/-! ## Store -/

/-- Run-time failures: `nilPointerDereference` is Go's panic on using a nil
pointer; `invalidAddress` is a reference to a cell the store does not have,
which a running Go program cannot produce. -/
inductive Fault where
  | nilPointerDereference
  | invalidAddress
  deriving DecidableEq

/-- Addresses of store cells. A reference is an `Option Addr`, with `none` for nil. -/
abbrev Addr := Nat

/-- Reading through a reference. A new cell is always appended to its list, so
the address of a fresh cell is the length of the list. -/
def load {α : Type} (cells : List α) : Option Addr → Except Fault α
  | none => .error .nilPointerDereference
  | some a =>
    match cells[a]? with
    | none => .error .invalidAddress
    | some v => .ok v

/-- Writing through a reference. -/
def store {α : Type} (cells : List α) (p : Option Addr) (v : α) : Except Fault (List α) :=
  match p with
  | none => .error .nilPointerDereference
  | some a => if a < cells.length then .ok (cells.set a v) else .error .invalidAddress

/-- The content of a Go `map[string]string` (`util.Map`). -/
abbrev StringMap := String → Option String

/-- The map `make(util.Map)` returns: no key is present. -/
def emptyMap : StringMap := fun _ => none

/-- The assignment `m[k] = v` on the content of a map. -/
def StringMap.set (m : StringMap) (k v : String) : StringMap :=
  fun x => if x = k then some v else m x

/-! ## Data model (`api/v1alpha1`) -/

/-- Modelled from the spec: the Go type `PodDisruptionBudgetSpec` is not in the
sources. The glossary calls it a policy bounding how many members may be
disrupted at once; one bound stands for its content. The sources only ever
pass a `*PodDisruptionBudgetSpec` on, so the pointer is held as an optional
value. -/
structure PodDisruptionBudgetSpec where
  MaxUnavailable : Int
  deriving DecidableEq

/-- Modelled from the spec: the config block of a role or of a role group. The
type declaration is not in the sources; the fields are the ones `server.go`
reads (`Config.PodDisruptionBudget`, `Config.NodeSelector`). The spec has one
shape of block on both levels ("the two config blocks are merged
field-by-field"). -/
structure ConfigSpec where
  PodDisruptionBudget : Option PodDisruptionBudgetSpec
  /-- A `map[string]string`: a reference to a map cell, or nil. -/
  NodeSelector : Option Addr
  deriving DecidableEq

/-- Modelled from the spec: `RoleGroupSpec`, the override of one role group and
also the type of the effective spec. The type declaration is not in the
sources; the fields are the ones `server.go` reads (`Replicas`, `Config`),
which are also the ones the spec names ("a nested optional config block ... and
a replica count"). -/
structure RoleGroupSpec where
  Replicas : Int
  /-- A `*ConfigSpec`: a reference to a config cell, or nil. -/
  Config : Option Addr
  deriving DecidableEq

/-- Modelled from the spec: `ServerSpec`, the role-level spec. The type
declaration is not in the sources. `Config`, `RoleGroups` and
`PodDisruptionBudget` are the fields `server.go` reads from it; `Replicas` is
the role-level replica count of the spec's example ("role spec with
replicas=3"). `RoleGroups` is a Go map from group name to `*RoleGroupSpec`; Go
leaves the order a `range` visits a map in unspecified, and the order of this
list stands for the order of one pass. -/
structure ServerSpec where
  Replicas : Int
  Config : Option Addr
  RoleGroups : List (String × Addr)
  PodDisruptionBudget : Option PodDisruptionBudgetSpec
  deriving DecidableEq

/-- The store: one list of cells for each kind of object a reference can
point to. -/
structure Heap where
  servers : List ServerSpec
  groups : List RoleGroupSpec
  configs : List ConfigSpec
  maps : List StringMap

/-! ## Deep copy and merge helpers (`zz_generated.deepcopy.go`, `internal/common`) -/

/-- Modelled from the spec: the copy of a `map[string]string` made by a
generated `DeepCopy`; nil stays nil, any other map is copied into a new
cell. -/
def copyMap (h : Heap) : Option Addr → Except Fault (Option Addr × Heap)
  | none => .ok (none, h)
  | some a =>
    match load h.maps (some a) with
    | .error e => .error e
    | .ok m => .ok (some h.maps.length, { h with maps := h.maps ++ [m] })

/-- Modelled from the spec: the generated `DeepCopy` of a `*ConfigSpec`
("a deep copy of the override"); nil stays nil, the node selector is copied
too. -/
def ConfigSpec.DeepCopy (h : Heap) : Option Addr → Except Fault (Option Addr × Heap)
  | none => .ok (none, h)
  | some a =>
    match load h.configs (some a) with
    | .error e => .error e
    | .ok c =>
      match copyMap h c.NodeSelector with
      | .error e => .error e
      | .ok (ns, h1) =>
        .ok (some h1.configs.length,
          { h1 with configs := h1.configs ++
              [{ PodDisruptionBudget := c.PodDisruptionBudget, NodeSelector := ns }] })

/-- Modelled from the spec: the generated `DeepCopy` of a `*RoleGroupSpec`
("merge operates on a deep copy of the override so the original override is
untouched"); nil stays nil, the config block is copied too. -/
def RoleGroupSpec.DeepCopy (h : Heap) : Option Addr → Except Fault (Option Addr × Heap)
  | none => .ok (none, h)
  | some a =>
    match load h.groups (some a) with
    | .error e => .error e
    | .ok g =>
      match ConfigSpec.DeepCopy h g.Config with
      | .error e => .error e
      | .ok (c, h1) =>
        .ok (some h1.groups.length,
          { h1 with groups := h1.groups ++ [{ Replicas := g.Replicas, Config := c }] })

/-- Modelled from the spec: the rule `common.MergeObjects` applies to one
field ("for every field present in the role-level spec but absent (unset/zero)
in the copy ... copy the role's value into the copy", "excluding" the fields
named in `exclude`): the left value is kept unless it is zero and the right
one is not. -/
def mergeField {β : Type} (exclude : List String) (name : String) (isZero : β → Bool)
    (left right : β) : β :=
  if name ∈ exclude then left
  else if isZero right then left
  else if isZero left then right
  else left

/-- Modelled from the spec: `common.MergeObjects(left, right, exclude)` with a
`*RoleGroupSpec` on the left and a `*ServerSpec` on the right. It writes the
left object, over the fields the two types share; a reference field is copied
as a reference. The role's `RoleGroups` and `PodDisruptionBudget` have no
counterpart in a `RoleGroupSpec`. The spec has the merge total ("never fails;
an absent-field combination simply yields an absent result"): with a nil
object on either side nothing is written. -/
def MergeObjects (h : Heap) (left right : Option Addr) (exclude : List String) :
    Except Fault Heap :=
  match left, right with
  | none, _ => .ok h
  | _, none => .ok h
  | some la, some ra =>
    match load h.groups (some la) with
    | .error e => .error e
    | .ok l =>
      match load h.servers (some ra) with
      | .error e => .error e
      | .ok r =>
        match store h.groups (some la)
            { Replicas := mergeField exclude "Replicas" (fun n => n == 0) l.Replicas r.Replicas,
              Config := mergeField exclude "Config" Option.isNone l.Config r.Config } with
        | .error e => .error e
        | .ok gs => .ok { h with groups := gs }

/-- Modelled from the spec: `common.MergeObjects(left, right, exclude)` with a
`*ConfigSpec` on both sides ("the two config blocks are merged field-by-field
with the same override-wins rule"). It writes the left block; with a nil
block on either side nothing is written. -/
def MergeObjectsConfig (h : Heap) (left right : Option Addr) (exclude : List String) :
    Except Fault Heap :=
  match left, right with
  | none, _ => .ok h
  | _, none => .ok h
  | some la, some ra =>
    match load h.configs (some la) with
    | .error e => .error e
    | .ok l =>
      match load h.configs (some ra) with
      | .error e => .error e
      | .ok r =>
        match store h.configs (some la)
            { PodDisruptionBudget :=
                mergeField exclude "PodDisruptionBudget" Option.isNone
                  l.PodDisruptionBudget r.PodDisruptionBudget,
              NodeSelector :=
                mergeField exclude "NodeSelector" Option.isNone l.NodeSelector r.NodeSelector } with
        | .error e => .error e
        | .ok cs => .ok { h with configs := cs }

/-! ## `mergeConfig` (server.go, lines 138-152) -/

/-- The function `mergeConfig(masterRole, group)`: deep copy of the group, merge of the role
into the copy with `RoleGroups` excluded, then merge of the role's config block
into the copy's config block when neither is nil. Returns the copy. The test
of line 148 reads `masterRole.Config` first and reads `copiedRoleGroup.Config`
only when the former is not nil. -/
def mergeConfig (h : Heap) (masterRole group : Option Addr) :
    Except Fault (Option Addr × Heap) :=
  match RoleGroupSpec.DeepCopy h group with
  | .error e => .error e
  | .ok (copiedRoleGroup, h1) =>
    match MergeObjects h1 copiedRoleGroup masterRole ["RoleGroups"] with
    | .error e => .error e
    | .ok h2 =>
      match load h2.servers masterRole with
      | .error e => .error e
      | .ok role =>
        if role.Config ≠ none then
          match load h2.groups copiedRoleGroup with
          | .error e => .error e
          | .ok copied =>
            if copied.Config ≠ none then
              match MergeObjectsConfig h2 copied.Config role.Config [] with
              | .error e => .error e
              | .ok h3 => .ok (copiedRoleGroup, h3)
            else .ok (copiedRoleGroup, h2)
        else .ok (copiedRoleGroup, h2)

/-! ## Label maps (`internal/util`) -/

/-- Modelled from the spec: what `util.Map.MapMerge` leaves in the receiver
("insert all entries", "override wins on key collision — later insertion
replaces earlier" when `replace` is set; without it a key already present
keeps its value). -/
def mergeEntries (dst src : StringMap) (replace : Bool) : StringMap :=
  fun k =>
    match src k with
    | some v => if replace || (dst k).isNone then some v else dst k
    | none => dst k

/-- Modelled from the spec: `m.MapMerge(source, replace)`. It writes the
receiver map `m` only; ranging over a nil `source` does nothing. -/
def MapMerge (h : Heap) (m source : Option Addr) (replace : Bool) : Except Fault Heap :=
  match source with
  | none => .ok h
  | some s =>
    match load h.maps (some s) with
    | .error e => .error e
    | .ok src =>
      match load h.maps m with
      | .error e => .error e
      | .ok dst =>
        match store h.maps m (mergeEntries dst src replace) with
        | .error e => .error e
        | .ok ms => .ok { h with maps := ms }

/-! ## Reconcilers -/

/-- The part `ZookeeperCluster.Spec` that `server.go` reads: `Server`, a `*ServerSpec`. -/
structure ZookeeperClusterSpec where
  Server : Option Addr
  deriving DecidableEq

/-- The owning cluster object, `*zkv1alpha1.ZookeeperCluster`. -/
structure ZookeeperCluster where
  Spec : ZookeeperClusterSpec
  deriving DecidableEq

/-- Modelled from the spec: the constant `common.Server`, the name of the role
(the glossary: "here, server"). -/
def common.Server : String := "server"

/-- The value `&LogDataBuilder{cfg: mergedCfg}`. -/
structure LogDataBuilder where
  cfg : Option Addr
  deriving DecidableEq

/-- A `common.ResourceReconciler` as its constructor built it: the kind of
child resource and the arguments the constructor was given. The scheme, the
client and the owning instance are the same in every call and are left out.
The constructors are not in the sources; what they build from their arguments
is outside this file. -/
inductive ResourceReconciler where
  | PDB (labels : Option Addr) (name : String) (pdb : Option PodDisruptionBudgetSpec)
  | ConfigMap (groupName : String) (labels : Option Addr) (mergedCfg : Option Addr)
  | ServerLogging (groupName : String) (labels : Option Addr) (mergedCfg : Option Addr)
      (logDataBuilder : LogDataBuilder) (role : String)
  | ServiceAccount (groupName : String) (labels : Option Addr) (mergedCfg : Option Addr)
  | StatefulSet (groupName : String) (labels : Option Addr) (mergedCfg : Option Addr)
      (replicas : Int)
  | ServiceHeadless (groupName : String) (labels : Option Addr) (mergedCfg : Option Addr)
  deriving DecidableEq

/-- The constructor `common.NewReconcilePDB(client, scheme, instance, labels, name, pdb)`. -/
def common.NewReconcilePDB (labels : Option Addr) (name : String)
    (pdb : Option PodDisruptionBudgetSpec) : ResourceReconciler :=
  .PDB labels name pdb

/-- The constructor `NewConfigMap(scheme, instance, client, groupName, labels, mergedCfg)`. -/
def NewConfigMap (groupName : String) (labels mergedCfg : Option Addr) : ResourceReconciler :=
  .ConfigMap groupName labels mergedCfg

/-- The constructor `NewServerLogging(..., groupName, labels, mergedCfg, logDataBuilder, role)`. -/
def NewServerLogging (groupName : String) (labels mergedCfg : Option Addr)
    (logDataBuilder : LogDataBuilder) (role : String) : ResourceReconciler :=
  .ServerLogging groupName labels mergedCfg logDataBuilder role

/-- The constructor `NewServiceAccount(scheme, instance, client, groupName, labels, mergedCfg)`. -/
def NewServiceAccount (groupName : String) (labels mergedCfg : Option Addr) :
    ResourceReconciler :=
  .ServiceAccount groupName labels mergedCfg

/-- The constructor `NewStatefulSet(..., groupName, labels, mergedCfg, replicas)`. -/
def NewStatefulSet (groupName : String) (labels mergedCfg : Option Addr) (replicas : Int) :
    ResourceReconciler :=
  .StatefulSet groupName labels mergedCfg replicas

/-- The constructor `NewServiceHeadless(scheme, instance, client, groupName, labels, mergedCfg)`. -/
def NewServiceHeadless (groupName : String) (labels mergedCfg : Option Addr) :
    ResourceReconciler :=
  .ServiceHeadless groupName labels mergedCfg

/-- The struct `RoleGroup` (`common.BaseRoleGroupReconciler`): the fields `server.go` uses. -/
structure RoleGroup where
  Instance : ZookeeperCluster
  GroupName : String
  /-- A `map[string]string`: a reference to a map cell, or nil. -/
  RoleLabels : Option Addr
  Reconcilers : List ResourceReconciler
  deriving DecidableEq

/-- The method `RoleGroup.MergeGroupConfigSpec` (lines 119-126): the override declared under the
group's name, merged with the role. A name the mapping does not have gives a
nil override. -/
def RoleGroup.MergeGroupConfigSpec (m : RoleGroup) (h : Heap) :
    Except Fault (Option Addr × Heap) :=
  match load h.servers m.Instance.Spec.Server with
  | .error e => .error e
  | .ok server =>
    let originMasterCfg := server.RoleGroups.lookup m.GroupName
    mergeConfig h m.Instance.Spec.Server originMasterCfg

/-- The method `RoleGroup.MergeLabels` (lines 128-136): a new map, the role labels merged into it,
then the node selector of the merged config block, then the identity key set
to the lower-cased group name. `ToLower` is Go's `strings.ToLower`. -/
def RoleGroup.MergeLabels (ToLower : String → String) (m : RoleGroup) (h : Heap)
    (mergedCfg : Option Addr) : Except Fault (Option Addr × Heap) :=
  let roleLabels := m.RoleLabels
  let mergeLabels : Option Addr := some h.maps.length
  let h0 : Heap := { h with maps := h.maps ++ [emptyMap] }
  match MapMerge h0 mergeLabels roleLabels true with
  | .error e => .error e
  | .ok h1 =>
    match load h1.groups mergedCfg with
    | .error e => .error e
    | .ok mergedMasterCfg =>
      match load h1.configs mergedMasterCfg.Config with
      | .error e => .error e
      | .ok config =>
        match MapMerge h1 mergeLabels config.NodeSelector true with
        | .error e => .error e
        | .ok h2 =>
          match load h2.maps mergeLabels with
          | .error e => .error e
          | .ok labels =>
            match store h2.maps mergeLabels
                (labels.set "app.kubernetes.io/instance" (ToLower m.GroupName)) with
            | .error e => .error e
            | .ok ms => .ok (mergeLabels, { h2 with maps := ms })

/-- The method `RoleGroup.RegisterResource` (lines 103-117): the effective spec, its labels, and
the list of the six child-resource reconcilers. -/
def RoleGroup.RegisterResource (ToLower : String → String) (m : RoleGroup) (h : Heap) :
    Except Fault (RoleGroup × Heap) :=
  match m.MergeGroupConfigSpec h with
  | .error e => .error e
  | .ok (cfg, h1) =>
    match RoleGroup.MergeLabels ToLower m h1 cfg with
    | .error e => .error e
    | .ok (lables, h2) =>
      match load h2.groups cfg with
      | .error e => .error e
      | .ok mergedCfg =>
        match load h2.configs mergedCfg.Config with
        | .error e => .error e
        | .ok config =>
          let pdbSpec := config.PodDisruptionBudget
          let logDataBuilder : LogDataBuilder := { cfg := cfg }
          let pdb := common.NewReconcilePDB lables m.GroupName pdbSpec
          let cm := NewConfigMap m.GroupName lables cfg
          let log := NewServerLogging m.GroupName lables cfg logDataBuilder common.Server
          let sa := NewServiceAccount m.GroupName lables cfg
          let statefulSet := NewStatefulSet m.GroupName lables cfg mergedCfg.Replicas
          let svc := NewServiceHeadless m.GroupName lables cfg
          .ok ({ m with Reconcilers := [sa, cm, log, pdb, statefulSet, svc] }, h2)

/-- The constructor `NewRoleGroupReconciler` (lines 82-101). -/
def NewRoleGroupReconciler (ToLower : String → String) (h : Heap) (inst : ZookeeperCluster)
    (groupName : String) (roleLabels : Option Addr) : Except Fault (RoleGroup × Heap) :=
  RoleGroup.RegisterResource ToLower
    { Instance := inst, GroupName := groupName, RoleLabels := roleLabels, Reconcilers := [] } h

/-! ## `ReconcileRole` (lines 49-75) -/

/-- The struct `ctrl.Result`; `RequeueAfter` is a `time.Duration`. -/
structure Result where
  Requeue : Bool
  RequeueAfter : Int
  deriving DecidableEq

/-- The pair `(ctrl.Result, error)` a reconcile step returns; `none` is the nil error. -/
abbrev Outcome := Result × Option String

/-- The value `ctrl.Result{}`. -/
def Result.empty : Result := { Requeue := false, RequeueAfter := 0 }

/-- A step is done when it reports no error and no requeue delay: the only case
in which `ReconcileRole` goes on to the next step. -/
def Outcome.Done (o : Outcome) : Prop := o.2 = none ∧ ¬ o.1.RequeueAfter > 0

/-- What `ReconcileRole` returns for a step that is not done: the error with an
empty result, or else the pending result as it is. -/
def Outcome.propagated (o : Outcome) : Outcome :=
  match o.2 with
  | some err => (Result.empty, some err)
  | none => (o.1, none)

/-- The collaborators outside this file, over a cluster state `W`:
`pdb.ReconcileResource` for a reconciler built by `common.NewReconcilePDB`,
and `ReconcileGroup` of `common.BaseRoleGroupReconciler`. Each reads the store
and returns its outcome and the next cluster state. -/
structure Env (W : Type) where
  ReconcileResource : ResourceReconciler → Heap → W → Outcome × W
  ReconcileGroup : RoleGroup → Heap → W → Outcome × W

/-- One call to a collaborator, with the outcome it returned. -/
inductive Event where
  | resource (r : ResourceReconciler) (o : Outcome)
  | group (name : String) (o : Outcome)
  deriving DecidableEq

/-- The state of a pass: the store, the cluster, and the calls made so far. -/
structure Sys (W : Type) where
  heap : Heap
  world : W
  trace : List Event

/-- The struct `Role` (`common.BaseRoleReconciler`): the fields `server.go` uses. -/
structure Role where
  Instance : ZookeeperCluster
  /-- A `map[string]string`: a reference to a map cell, or nil. -/
  Labels : Option Addr
  deriving DecidableEq

/-- The method `Role.RoleName` (lines 41-43). -/
def Role.RoleName (_r : Role) : String := common.Server

/-- The loop of `ReconcileRole` over the declared groups (lines 64-74), in the
order of the list. -/
def reconcileGroups {W : Type} (ToLower : String → String) (env : Env W) (r : Role) :
    List (String × Addr) → Sys W → Except Fault (Outcome × Sys W)
  | [], s => .ok ((Result.empty, none), s)
  | (name, _) :: rest, s =>
    match NewRoleGroupReconciler ToLower s.heap r.Instance name r.Labels with
    | .error e => .error e
    | .ok (groupReconciler, h1) =>
      let out := env.ReconcileGroup groupReconciler h1 s.world
      let s1 : Sys W := { heap := h1, world := out.2, trace := s.trace ++ [.group name out.1] }
      match out.1.2 with
      | some err => .ok ((Result.empty, some err), s1)
      | none =>
        if out.1.1.RequeueAfter > 0 then .ok ((out.1.1, none), s1)
        else reconcileGroups ToLower env r rest s1

/-- The condition of line 52,
`roleCfg.Config != nil && roleCfg.Config.PodDisruptionBudget != nil`: the
role's config block declares a disruption-budget policy. -/
def Role.declaresPDB (h : Heap) (roleCfg : ServerSpec) : Except Fault Bool :=
  match roleCfg.Config with
  | none => .ok false
  | some c =>
    match load h.configs (some c) with
    | .error e => .error e
    | .ok config => .ok config.PodDisruptionBudget.isSome

/-- The method `Role.ReconcileRole` (lines 49-75): the role-level disruption budget when the
role's config block declares one, then the groups. The policy handed to
`common.NewReconcilePDB` is `roleCfg.PodDisruptionBudget` (line 54). -/
def Role.ReconcileRole {W : Type} (ToLower : String → String) (env : Env W) (r : Role)
    (s : Sys W) : Except Fault (Outcome × Sys W) :=
  match load s.heap.servers r.Instance.Spec.Server with
  | .error e => .error e
  | .ok roleCfg =>
    match Role.declaresPDB s.heap roleCfg with
    | .error e => .error e
    | .ok false => reconcileGroups ToLower env r roleCfg.RoleGroups s
    | .ok true =>
      let pdb := common.NewReconcilePDB r.Labels r.RoleName roleCfg.PodDisruptionBudget
      let out := env.ReconcileResource pdb s.heap s.world
      let s1 : Sys W := { s with world := out.2, trace := s.trace ++ [.resource pdb out.1] }
      match out.1.2 with
      | some err => .ok ((Result.empty, some err), s1)
      | none =>
        if out.1.1.RequeueAfter > 0 then .ok ((out.1.1, none), s1)
        else reconcileGroups ToLower env r roleCfg.RoleGroups s1

/-! ## Well-formed stores and structural content -/

/-- Every reference held in a cell of the store points to a cell of the store. -/
structure Heap.Closed (h : Heap) : Prop where
  serverConfig : ∀ s ∈ h.servers, ∀ c ∈ s.Config, c < h.configs.length
  serverGroups : ∀ s ∈ h.servers, ∀ p ∈ s.RoleGroups, p.2 < h.groups.length
  groupConfig : ∀ g ∈ h.groups, ∀ c ∈ g.Config, c < h.configs.length
  configSelector : ∀ c ∈ h.configs, ∀ n ∈ c.NodeSelector, n < h.maps.length

/-- The cell a reference points to, when there is one. -/
def deref {α : Type} (cells : List α) (p : Option Addr) : Option α :=
  p.bind (fun a => cells[a]?)

/-- The entries a `range` over a map visits: none for the nil map. -/
def mapContent (maps : List StringMap) : Option Addr → Option StringMap
  | none => some emptyMap
  | some a => maps[a]?

/-- The content of a config block, with the node selector read out of the store. -/
structure ConfigView where
  PodDisruptionBudget : Option PodDisruptionBudgetSpec
  NodeSelector : Option StringMap

/-- The content of a role-group spec, with the config block read out of the store. -/
structure RoleGroupView where
  Replicas : Int
  Config : Option ConfigView

/-- The structural content behind a `*ConfigSpec`; nil has content `none`. -/
def viewConfig (h : Heap) : Option Addr → Except Fault (Option ConfigView)
  | none => .ok none
  | some c =>
    match load h.configs (some c) with
    | .error e => .error e
    | .ok config =>
      match config.NodeSelector with
      | none => .ok (some { PodDisruptionBudget := config.PodDisruptionBudget, NodeSelector := none })
      | some n =>
        match load h.maps (some n) with
        | .error e => .error e
        | .ok m =>
          .ok (some { PodDisruptionBudget := config.PodDisruptionBudget, NodeSelector := some m })

/-- The structural content behind a `*RoleGroupSpec`. -/
def viewGroup (h : Heap) (p : Option Addr) : Except Fault RoleGroupView :=
  match load h.groups p with
  | .error e => .error e
  | .ok g =>
    match viewConfig h g.Config with
    | .error e => .error e
    | .ok c => .ok { Replicas := g.Replicas, Config := c }

/-! ## Closed forms -/

/-- The map cells `mergeConfig` appends: the copy of the override's node selector. -/
def mergedMaps (h : Heap) (g : RoleGroupSpec) : List StringMap :=
  ((deref h.configs g.Config).bind (fun c => deref h.maps c.NodeSelector)).toList

/-- The config cells `mergeConfig` appends: the copy of the override's block,
after the merge of the role's block into it. -/
def mergedConfigs (h : Heap) (role : ServerSpec) (g : RoleGroupSpec) : List ConfigSpec :=
  ((deref h.configs g.Config).map (fun c =>
    let ns := c.NodeSelector.map (fun _ => h.maps.length)
    match deref h.configs role.Config with
    | none => { PodDisruptionBudget := c.PodDisruptionBudget, NodeSelector := ns }
    | some r =>
      { PodDisruptionBudget :=
          mergeField [] "PodDisruptionBudget" Option.isNone
            c.PodDisruptionBudget r.PodDisruptionBudget,
        NodeSelector := mergeField [] "NodeSelector" Option.isNone ns r.NodeSelector })).toList

/-- The group cell `mergeConfig` appends: the effective spec. -/
def mergedGroup (h : Heap) (role : ServerSpec) (g : RoleGroupSpec) : RoleGroupSpec :=
  { Replicas := mergeField ["RoleGroups"] "Replicas" (fun n => n == 0) g.Replicas role.Replicas,
    Config := mergeField ["RoleGroups"] "Config" Option.isNone
      (g.Config.map (fun _ => h.configs.length)) role.Config }

/-- The store `mergeConfig` leaves. -/
def mergedHeap (h : Heap) (role : ServerSpec) (g : RoleGroupSpec) : Heap :=
  Heap.mk h.servers (h.groups ++ [mergedGroup h role g]) (h.configs ++ mergedConfigs h role g)
    (h.maps ++ mergedMaps h g)

/-- The merge of two config blocks on their content. -/
def mergeConfigView : Option ConfigView → Option ConfigView → Option ConfigView
  | none, r => r
  | some g, none => some g
  | some g, some r =>
    some { PodDisruptionBudget :=
             mergeField [] "PodDisruptionBudget" Option.isNone
               g.PodDisruptionBudget r.PodDisruptionBudget,
           NodeSelector := mergeField [] "NodeSelector" Option.isNone g.NodeSelector r.NodeSelector }

/-- The store `h2` has every cell of `h1`, unchanged, and perhaps new cells. -/
structure Heap.Extends (h1 h2 : Heap) : Prop where
  servers : h2.servers = h1.servers
  groups : h1.groups <+: h2.groups
  configs : h1.configs <+: h2.configs
  maps : h1.maps <+: h2.maps

/-- The content `RoleGroup.MergeLabels` leaves in the new map, from the content
of the role labels and of the node selector. -/
def mergedLabels (ToLower : String → String) (groupName : String) (roleLabels selector : StringMap) :
    StringMap :=
  (mergeEntries (mergeEntries emptyMap roleLabels true) selector true).set
    "app.kubernetes.io/instance" (ToLower groupName)

/-- What the loop over the groups relies on, for the role at `ra`: a closed
store in which the cluster's role spec is `role`, and role labels that are a
map of the store. -/
structure RoleInv (h : Heap) (r : Role) (ra : Addr) (role : ServerSpec) : Prop where
  closed : h.Closed
  server : r.Instance.Spec.Server = some ra
  roleCell : h.servers[ra]? = some role
  labels : ∀ n ∈ r.Labels, n < h.maps.length

/-- The group declared under `name` has a config block in its override or in
the role: its effective spec has one. -/
def HasConfig (h : Heap) (role : ServerSpec) (name : String) : Prop :=
  ∀ ga ∈ role.RoleGroups.lookup name, ∀ g ∈ h.groups[ga]?,
    role.Config.isSome ∨ g.Config.isSome

/-- The reference run of a list of groups: every group of `names` is
reconciled, once and in order, whatever it reports. For each, the reconciler
is built by `NewRoleGroupReconciler` in the store the run has reached, the
collaborator `ReconcileGroup` is called in the cluster state the run has
reached, its answer is the outcome listed for the group, and the cluster state
it returns is the one the next group starts in. -/
def invokeGroups {W : Type} (ToLower : String → String) (env : Env W) (r : Role) :
    List String → Sys W → Except Fault (List Outcome × Sys W)
  | [], s => .ok ([], s)
  | name :: rest, s =>
    match NewRoleGroupReconciler ToLower s.heap r.Instance name r.Labels with
    | .error e => .error e
    | .ok (groupReconciler, h1) =>
      match invokeGroups ToLower env r rest
          { heap := h1, world := (env.ReconcileGroup groupReconciler h1 s.world).2,
            trace := s.trace ++
              [Event.group name (env.ReconcileGroup groupReconciler h1 s.world).1] } with
      | .error e => .error e
      | .ok (outs, s2) => .ok ((env.ReconcileGroup groupReconciler h1 s.world).1 :: outs, s2)

/-! ## Example objects -/

/-- Go's `strings.ToLower` on ASCII strings. -/
def asciiLower (s : String) : String := String.mk (s.data.map Char.toLower)

/-- The role spec of the examples: three replicas, a config block that declares
a disruption budget and no node selector, two groups, and no `PodDisruptionBudget`
of its own. -/
def exampleRole : ServerSpec :=
  { Replicas := 3, Config := some 0, RoleGroups := [("default", 0), ("Analytics", 1)],
    PodDisruptionBudget := none }

/-- The override of the group default: the empty override. -/
def emptyOverride : RoleGroupSpec := { Replicas := 0, Config := none }

/-- The override of the group Analytics: five replicas and a config block that
sets a node selector and no disruption budget. -/
def analyticsOverride : RoleGroupSpec := { Replicas := 5, Config := some 1 }

/-- A store with `exampleRole` (server 0), its config block (config 0), the two
overrides (groups 0 and 1), the config block of the second (config 1) with its
node selector (map 0), the role labels (map 1), and a spec that uses the
role's block as it is (group 2). -/
def exampleHeap : Heap :=
  Heap.mk [exampleRole]
    [emptyOverride, analyticsOverride, { Replicas := 1, Config := some 0 }]
    [{ PodDisruptionBudget := some { MaxUnavailable := 1 }, NodeSelector := none },
     { PodDisruptionBudget := none, NodeSelector := some 0 }]
    [fun k => if k = "disk" then some "ssd" else none,
     fun k => if k = "tier" then some "server" else none]

/-- The cluster object of the examples: its role spec is server 0. -/
def exampleCluster : ZookeeperCluster := { Spec := { Server := some 0 } }

/-- The role reconciler of the examples; its labels are map 1. -/
def exampleRoleReconciler : Role := { Instance := exampleCluster, Labels := some 1 }

/-- A store in which neither the role nor its one group, default, has a config
block. -/
def bareHeap : Heap :=
  Heap.mk [{ Replicas := 0, Config := none, RoleGroups := [("default", 0)],
             PodDisruptionBudget := none }]
    [{ Replicas := 1, Config := none }] [] []

/-- Collaborators with fixed answers: the disruption-budget step reports
`pdbOut`, and reconciling a group reports `groupOut` of its name. -/
def fixedEnv (pdbOut : Outcome) (groupOut : String → Outcome) : Env Unit :=
  { ReconcileResource := fun _ _ w => (pdbOut, w),
    ReconcileGroup := fun g _ w => (groupOut g.GroupName, w) }

/-- The outcome of a step that is done. -/
def doneOutcome : Outcome := (Result.empty, none)

/-- The state a pass over the example store starts in. -/
def exampleSys : Sys Unit := { heap := exampleHeap, world := (), trace := [] }

/-- A store whose role has no config block and declares two groups: first has
a config block of its own (config 0), second has none. -/
def mixedHeap : Heap :=
  Heap.mk [{ Replicas := 0, Config := none, RoleGroups := [("first", 0), ("second", 1)],
             PodDisruptionBudget := none }]
    [{ Replicas := 1, Config := some 0 }, { Replicas := 1, Config := none }]
    [{ PodDisruptionBudget := none, NodeSelector := none }] []

/-- The role spec of `mixedHeap`. -/
def mixedRole : ServerSpec :=
  { Replicas := 0, Config := none, RoleGroups := [("first", 0), ("second", 1)],
    PodDisruptionBudget := none }

/-- The role reconciler for `mixedHeap`, without role labels. -/
def mixedRoleReconciler : Role := { Instance := exampleCluster, Labels := none }

/-- The state a pass over `mixedHeap` starts in. -/
def mixedSys : Sys Unit := { heap := mixedHeap, world := (), trace := [] }

/-! # Theorems -/

/-! ## Store lemmas -/

theorem mergeField_self {β : Type} (exclude : List String) (name : String) (isZero : β → Bool)
    (x : β) : mergeField exclude name isZero x x = x := by
  simp [mergeField]

theorem mergeField_none {β : Type} {exclude : List String} {name : String}
    (hn : name ∉ exclude) (r : Option β) :
    mergeField exclude name Option.isNone none r = r := by
  cases r <;> simp [mergeField, hn]

theorem mergeField_some {β : Type} (exclude : List String) (name : String) (a : β)
    (r : Option β) : mergeField exclude name Option.isNone (some a) r = some a := by
  simp [mergeField]

theorem set_self_of_getElem? {α : Type} {l : List α} {i : Nat} {v : α} (hv : l[i]? = some v) :
    l.set i v = l := by
  apply List.ext_getElem?
  intro j
  by_cases hij : i = j
  · subst hij
    simp [List.getElem?_set, hv]
    exact (List.getElem?_eq_some.mp hv).1
  · simp [List.getElem?_set, hij]

theorem getElem?_of_lt {α : Type} {l : List α} {i : Nat} (hi : i < l.length) :
    ∃ v, l[i]? = some v ∧ v ∈ l :=
  ⟨l[i], List.getElem?_eq_getElem hi, List.getElem_mem hi⟩

/-! ## `mergeConfig` in closed form -/

theorem mergeConfig_eval (h : Heap) (ra ga : Addr) (role : ServerSpec) (g : RoleGroupSpec)
    (hc : h.Closed) (hr : h.servers[ra]? = some role) (hg : h.groups[ga]? = some g) :
    mergeConfig h (some ra) (some ga) = .ok (some h.groups.length, mergedHeap h role g) := by
  have hrm : role ∈ h.servers := List.getElem?_mem hr
  have hgm : g ∈ h.groups := List.getElem?_mem hg
  have hn : "Config" ∉ ["RoleGroups"] := by decide
  rcases hgc : g.Config with _ | gc <;> rcases hrc : role.Config with _ | rc
  · simp [mergeConfig, RoleGroupSpec.DeepCopy, ConfigSpec.DeepCopy, MergeObjects, load, store,
      hr, hg, hgc, hrc, mergedHeap, mergedGroup, mergedConfigs, mergedMaps, deref]
  · have hlt := hc.serverConfig role hrm rc (by simp [hrc])
    obtain ⟨rcfg, hrcfg, -⟩ := getElem?_of_lt hlt
    simp [mergeConfig, RoleGroupSpec.DeepCopy, ConfigSpec.DeepCopy, MergeObjects,
      MergeObjectsConfig, load, store, hr, hg, hgc, hrc, mergedHeap, mergedGroup, mergedConfigs,
      mergedMaps, deref, hrcfg, mergeField_none hn, mergeField_self, set_self_of_getElem? hrcfg,
      hlt]
  · have hlt := hc.groupConfig g hgm gc (by simp [hgc])
    obtain ⟨gcfg, hgcfg, hgcm⟩ := getElem?_of_lt hlt
    rcases hns : gcfg.NodeSelector with _ | ns
    · simp [mergeConfig, RoleGroupSpec.DeepCopy, ConfigSpec.DeepCopy, copyMap, MergeObjects,
        MergeObjectsConfig, load, store, hr, hg, hgc, hrc, mergedHeap, mergedGroup, mergedConfigs,
        mergedMaps, deref, hgcfg, hns, mergeField_some, hlt]
    · have hlt2 := hc.configSelector gcfg hgcm ns (by simp [hns])
      obtain ⟨m, hm, -⟩ := getElem?_of_lt hlt2
      simp [mergeConfig, RoleGroupSpec.DeepCopy, ConfigSpec.DeepCopy, copyMap, MergeObjects,
        MergeObjectsConfig, load, store, hr, hg, hgc, hrc, mergedHeap, mergedGroup, mergedConfigs,
        mergedMaps, deref, hgcfg, hns, mergeField_some, hlt, hm]
  · have hlt := hc.groupConfig g hgm gc (by simp [hgc])
    obtain ⟨gcfg, hgcfg, hgcm⟩ := getElem?_of_lt hlt
    have hlt3 := hc.serverConfig role hrm rc (by simp [hrc])
    obtain ⟨rcfg, hrcfg, -⟩ := getElem?_of_lt hlt3
    rcases hns : gcfg.NodeSelector with _ | ns
    · simp [mergeConfig, RoleGroupSpec.DeepCopy, ConfigSpec.DeepCopy, copyMap, MergeObjects,
        MergeObjectsConfig, load, store, hr, hg, hgc, hrc, mergedHeap, mergedGroup, mergedConfigs,
        mergedMaps, deref, hgcfg, hns, mergeField_some, hlt, hrcfg, hlt3,
        List.getElem?_append_left hlt3]
    · have hlt2 := hc.configSelector gcfg hgcm ns (by simp [hns])
      obtain ⟨m, hm, -⟩ := getElem?_of_lt hlt2
      simp [mergeConfig, RoleGroupSpec.DeepCopy, ConfigSpec.DeepCopy, copyMap, MergeObjects,
        MergeObjectsConfig, load, store, hr, hg, hgc, hrc, mergedHeap, mergedGroup, mergedConfigs,
        mergedMaps, deref, hgcfg, hns, mergeField_some, hlt, hm, hrcfg, hlt3,
        List.getElem?_append_left hlt3]

theorem getElem?_of_extends {α : Type} {l1 l2 : List α} (hp : l1 <+: l2) {i : Nat}
    (hi : i < l1.length) : l2[i]? = l1[i]? := by
  obtain ⟨t, rfl⟩ := hp
  exact List.getElem?_append_left hi

theorem Heap.Extends.refl (h : Heap) : h.Extends h :=
  ⟨rfl, List.prefix_refl _, List.prefix_refl _, List.prefix_refl _⟩

theorem Heap.Extends.trans {h1 h2 h3 : Heap} (h12 : h1.Extends h2) (h23 : h2.Extends h3) :
    h1.Extends h3 :=
  ⟨h23.servers.trans h12.servers, h12.groups.trans h23.groups, h12.configs.trans h23.configs,
    h12.maps.trans h23.maps⟩

theorem mergedHeap_extends (h : Heap) (role : ServerSpec) (g : RoleGroupSpec) :
    h.Extends (mergedHeap h role g) :=
  ⟨rfl, List.prefix_append _ _, List.prefix_append _ _, List.prefix_append _ _⟩

theorem viewConfig_extends {h1 h2 : Heap} (hx : h1.Extends h2) (hc : h1.Closed)
    (p : Option Addr) (hp : ∀ c ∈ p, c < h1.configs.length) :
    viewConfig h2 p = viewConfig h1 p := by
  rcases p with _ | c
  · rfl
  · have hlt := hp c rfl
    obtain ⟨config, hcfg, hmem⟩ := getElem?_of_lt hlt
    have hcfg2 : h2.configs[c]? = some config := (getElem?_of_extends hx.configs hlt).trans hcfg
    rcases hns : config.NodeSelector with _ | n
    · simp [viewConfig, load, hcfg, hcfg2, hns]
    · have hlt2 := hc.configSelector config hmem n (by simp [hns])
      simp [viewConfig, load, hcfg, hcfg2, hns, getElem?_of_extends hx.maps hlt2]

theorem viewConfig_ok {h : Heap} (hc : h.Closed) (p : Option Addr)
    (hp : ∀ c ∈ p, c < h.configs.length) : ∃ v, viewConfig h p = .ok v := by
  rcases p with _ | c
  · exact ⟨none, rfl⟩
  · have hlt := hp c rfl
    obtain ⟨config, hcfg, hmem⟩ := getElem?_of_lt hlt
    rcases hns : config.NodeSelector with _ | n
    · simp [viewConfig, load, hcfg, hns]
    · have hlt2 := hc.configSelector config hmem n (by simp [hns])
      obtain ⟨m, hm, -⟩ := getElem?_of_lt hlt2
      simp [viewConfig, load, hcfg, hns, hm]

theorem viewGroup_extends {h1 h2 : Heap} (hx : h1.Extends h2) (hc : h1.Closed)
    (a : Addr) (ha : a < h1.groups.length) :
    viewGroup h2 (some a) = viewGroup h1 (some a) := by
  obtain ⟨g, hg, hmem⟩ := getElem?_of_lt ha
  have hg2 : h2.groups[a]? = some g := (getElem?_of_extends hx.groups ha).trans hg
  simp [viewGroup, load, hg, hg2, viewConfig_extends hx hc g.Config (hc.groupConfig g hmem)]

theorem viewGroup_ok {h : Heap} (hc : h.Closed) (a : Addr) (ha : a < h.groups.length) :
    ∃ v, viewGroup h (some a) = .ok v := by
  obtain ⟨g, hg, hmem⟩ := getElem?_of_lt ha
  obtain ⟨v, hv⟩ := viewConfig_ok hc g.Config (hc.groupConfig g hmem)
  simp [viewGroup, load, hg, hv]

theorem lt_length_append {α : Type} {l : List α} {i : Nat} (t : List α) (hi : i < l.length) :
    i < (l ++ t).length := by
  rw [List.length_append]
  exact Nat.lt_add_right _ hi

theorem mergedHeap_closed {h : Heap} {role : ServerSpec} {g : RoleGroupSpec} (hc : h.Closed)
    (hrm : role ∈ h.servers) (hgm : g ∈ h.groups) : (mergedHeap h role g).Closed := by
  have hn : "Config" ∉ ["RoleGroups"] := by decide
  have hn2 : "NodeSelector" ∉ ([] : List String) := by decide
  constructor
  · intro s hs c hcs
    exact lt_length_append _ (hc.serverConfig s hs c hcs)
  · intro s hs p hp
    exact lt_length_append _ (hc.serverGroups s hs p hp)
  · intro g1 hg1 c hcg
    simp only [mergedHeap, List.mem_append, List.mem_singleton] at hg1
    rcases hg1 with hg1 | rfl
    · exact lt_length_append _ (hc.groupConfig g1 hg1 c hcg)
    · rcases hgc : g.Config with _ | gc
      · simp only [mergedGroup, hgc, Option.map_none', mergeField_none hn] at hcg
        exact lt_length_append _ (hc.serverConfig role hrm c hcg)
      · have hlt := hc.groupConfig g hgm gc (by simp [hgc])
        obtain ⟨gcfg, hgcfg, -⟩ := getElem?_of_lt hlt
        simp [mergedGroup, hgc, mergeField_some] at hcg
        subst hcg
        simp [mergedHeap, mergedConfigs, deref, hgc, hgcfg]
  · intro c1 hc1 n hn1
    simp only [mergedHeap, List.mem_append] at hc1
    rcases hc1 with hc1 | hc1
    · exact lt_length_append _ (hc.configSelector c1 hc1 n hn1)
    · rcases hgc : g.Config with _ | gc
      · simp [mergedConfigs, deref, hgc] at hc1
      · have hlt := hc.groupConfig g hgm gc (by simp [hgc])
        obtain ⟨gcfg, hgcfg, hgcm⟩ := getElem?_of_lt hlt
        have hcopy : ∀ n ∈ gcfg.NodeSelector.map (fun _ => h.maps.length),
            n < (mergedHeap h role g).maps.length := by
          intro n hn3
          rcases hns : gcfg.NodeSelector with _ | ns
          · simp [hns] at hn3
          · have hlt2 := hc.configSelector gcfg hgcm ns (by simp [hns])
            obtain ⟨m, hm, -⟩ := getElem?_of_lt hlt2
            simp [hns] at hn3
            subst hn3
            simp [mergedHeap, mergedMaps, deref, hgc, hgcfg, hns, hm]
        rcases hrc : role.Config with _ | rc
        · simp [mergedConfigs, deref, hgc, hgcfg, hrc] at hc1
          subst hc1
          exact hcopy n hn1
        · have hlt3 := hc.serverConfig role hrm rc (by simp [hrc])
          obtain ⟨rcfg, hrcfg, hrcm⟩ := getElem?_of_lt hlt3
          simp [mergedConfigs, deref, hgc, hgcfg, hrc, hrcfg] at hc1
          subst hc1
          simp only at hn1
          rcases hns : gcfg.NodeSelector with _ | ns
          · simp only [hns, Option.map_none', mergeField_none hn2] at hn1
            exact lt_length_append _ (hc.configSelector rcfg hrcm n hn1)
          · simp only [hns, Option.map_some', mergeField_some] at hn1
            exact hcopy n (by simp [hns] at hn1 ⊢; exact hn1)

theorem viewGroup_merged {h : Heap} {role : ServerSpec} {g : RoleGroupSpec} (hc : h.Closed)
    (hrm : role ∈ h.servers) (hgm : g ∈ h.groups) {gv rv : Option ConfigView}
    (hgv : viewConfig h g.Config = .ok gv) (hrv : viewConfig h role.Config = .ok rv) :
    viewGroup (mergedHeap h role g) (some h.groups.length) =
      .ok { Replicas :=
              mergeField ["RoleGroups"] "Replicas" (fun n => n == 0) g.Replicas role.Replicas,
            Config := mergeConfigView gv rv } := by
  have hn : "Config" ∉ ["RoleGroups"] := by decide
  have hn2 : "NodeSelector" ∉ ([] : List String) := by decide
  have hx := mergedHeap_extends h role g
  have hrv2 := (viewConfig_extends hx hc role.Config (hc.serverConfig role hrm)).trans hrv
  have hload : load (mergedHeap h role g).groups (some h.groups.length) =
      .ok (mergedGroup h role g) := by
    simp [load, mergedHeap]
  rcases hgc : g.Config with _ | gc
  · simp only [hgc, viewConfig] at hgv
    cases hgv
    simp only [viewGroup, hload]
    simp only [mergedGroup, hgc, Option.map_none', mergeField_none hn, hrv2, mergeConfigView]
  · have hlt := hc.groupConfig g hgm gc (by simp [hgc])
    obtain ⟨gcfg, hgcfg, hgcm⟩ := getElem?_of_lt hlt
    simp only [viewGroup, hload]
    simp only [mergedGroup, hgc, Option.map_some', mergeField_some]
    rcases hns : gcfg.NodeSelector with _ | ns
    · simp [hgc, viewConfig, load, hgcfg, hns] at hgv
      subst hgv
      rcases hrc : role.Config with _ | rc
      · simp [hrc, viewConfig] at hrv
        subst hrv
        simp [viewConfig, load, mergedHeap, mergedConfigs, deref, hgc, hgcfg, hrc, hns,
          mergeConfigView]
      · have hlt3 := hc.serverConfig role hrm rc (by simp [hrc])
        obtain ⟨rcfg, hrcfg, hrcm⟩ := getElem?_of_lt hlt3
        rcases hrns : rcfg.NodeSelector with _ | rns
        · simp [hrc, viewConfig, load, hrcfg, hrns] at hrv
          subst hrv
          simp [viewConfig, load, mergedHeap, mergedConfigs, deref, hgc, hgcfg, hrc, hns,
            mergeConfigView, hrcfg, hrns, mergeField_self]
        · have hlt4 := hc.configSelector rcfg hrcm rns (by simp [hrns])
          obtain ⟨rm, hrm2, -⟩ := getElem?_of_lt hlt4
          simp [hrc, viewConfig, load, hrcfg, hrns, hrm2] at hrv
          subst hrv
          simp [viewConfig, load, mergedHeap, mergedConfigs, mergedMaps, deref, hgc, hgcfg, hrc,
            hns, mergeConfigView, hrcfg, hrns, mergeField_none hn2, hrm2]
    · have hlt2 := hc.configSelector gcfg hgcm ns (by simp [hns])
      obtain ⟨m, hm, -⟩ := getElem?_of_lt hlt2
      simp [hgc, viewConfig, load, hgcfg, hns, hm] at hgv
      subst hgv
      rcases hrc : role.Config with _ | rc
      · simp [hrc, viewConfig] at hrv
        subst hrv
        simp [viewConfig, load, mergedHeap, mergedConfigs, mergedMaps, deref, hgc, hgcfg, hrc,
          hns, mergeConfigView, hm]
      · have hlt3 := hc.serverConfig role hrm rc (by simp [hrc])
        obtain ⟨rcfg, hrcfg, hrcm⟩ := getElem?_of_lt hlt3
        rcases hrns : rcfg.NodeSelector with _ | rns
        · simp [hrc, viewConfig, load, hrcfg, hrns] at hrv
          subst hrv
          simp [viewConfig, load, mergedHeap, mergedConfigs, mergedMaps, deref, hgc, hgcfg, hrc,
            hns, mergeConfigView, hrcfg, hrns, mergeField_some, hm]
        · have hlt4 := hc.configSelector rcfg hrcm rns (by simp [hrns])
          obtain ⟨rm, hrm2, -⟩ := getElem?_of_lt hlt4
          simp [hrc, viewConfig, load, hrcfg, hrns, hrm2] at hrv
          subst hrv
          simp [viewConfig, load, mergedHeap, mergedConfigs, mergedMaps, deref, hgc, hgcfg, hrc,
            hns, mergeConfigView, hrcfg, hrns, mergeField_some, hm]

theorem mergeEntries_emptyMap (dst : StringMap) (replace : Bool) :
    mergeEntries dst emptyMap replace = dst := by
  funext k
  simp [mergeEntries, emptyMap]

theorem MergeLabels_eval (ToLower : String → String) (m : RoleGroup) (h : Heap) (ea ec : Addr)
    (eff : RoleGroupSpec) (ecfg : ConfigSpec) (rl sel : StringMap)
    (hg : h.groups[ea]? = some eff) (hec : eff.Config = some ec)
    (hcfg : h.configs[ec]? = some ecfg)
    (hrl : mapContent h.maps m.RoleLabels = some rl)
    (hsel : mapContent h.maps ecfg.NodeSelector = some sel) :
    RoleGroup.MergeLabels ToLower m h (some ea) =
      .ok (some h.maps.length,
        Heap.mk h.servers h.groups h.configs
          (h.maps ++ [mergedLabels ToLower m.GroupName rl sel])) := by
  rcases hr : m.RoleLabels with _ | ra <;> rcases hn : ecfg.NodeSelector with _ | na
  · simp [hr, hn, mapContent] at hrl hsel
    subst hrl hsel
    simp [RoleGroup.MergeLabels, MapMerge, load, store, hg, hec, hcfg, hr, hn, mergedLabels,
      mergeEntries_emptyMap]
  · simp [hr, hn, mapContent] at hrl hsel
    subst hrl
    have hlt := (List.getElem?_eq_some.mp hsel).1
    simp [RoleGroup.MergeLabels, MapMerge, load, store, hg, hec, hcfg, hr, hn, mergedLabels,
      mergeEntries_emptyMap, hsel, List.getElem?_append_left hlt]
  · simp [hr, hn, mapContent] at hrl hsel
    subst hsel
    have hlt := (List.getElem?_eq_some.mp hrl).1
    simp [RoleGroup.MergeLabels, MapMerge, load, store, hg, hec, hcfg, hr, hn, mergedLabels,
      mergeEntries_emptyMap, hrl, List.getElem?_append_left hlt]
  · simp [hr, hn, mapContent] at hrl hsel
    have hlt := (List.getElem?_eq_some.mp hrl).1
    have hlt2 := (List.getElem?_eq_some.mp hsel).1
    simp [RoleGroup.MergeLabels, MapMerge, load, store, hg, hec, hcfg, hr, hn, mergedLabels,
      mergeEntries_emptyMap, hrl, hsel, List.getElem?_append_left hlt,
      List.getElem?_append_left hlt2]

theorem mapContent_ok {maps : List StringMap} (p : Option Addr)
    (hp : ∀ n ∈ p, n < maps.length) : ∃ m, mapContent maps p = some m := by
  rcases p with _ | n
  · exact ⟨emptyMap, rfl⟩
  · obtain ⟨m, hm, -⟩ := getElem?_of_lt (hp n rfl)
    exact ⟨m, hm⟩

theorem mapContent_lt {maps : List StringMap} {p : Option Addr} {m : StringMap}
    (hm : mapContent maps p = some m) : ∀ n ∈ p, n < maps.length := by
  intro n hn
  cases hn
  exact (List.getElem?_eq_some.mp hm).1

theorem mapContent_of_extends {l1 l2 : List StringMap} (hp : l1 <+: l2) {p : Option Addr}
    {m : StringMap} (hm : mapContent l1 p = some m) : mapContent l2 p = some m := by
  rcases p with _ | n
  · exact hm
  · exact (getElem?_of_extends hp (mapContent_lt hm n rfl)).trans hm

theorem closed_maps_append {h : Heap} (hc : h.Closed) (ms : List StringMap) :
    (Heap.mk h.servers h.groups h.configs (h.maps ++ ms)).Closed :=
  ⟨hc.serverConfig, hc.serverGroups, hc.groupConfig,
    fun c hcm n hn => lt_length_append _ (hc.configSelector c hcm n hn)⟩

theorem lookup_mem {l : List (String × Addr)} {k : String} {a : Addr}
    (hl : l.lookup k = some a) : (k, a) ∈ l := by
  induction l with
  | nil => simp at hl
  | cons p t ih =>
    obtain ⟨k1, a1⟩ := p
    by_cases hk : k = k1
    · subst hk
      simp [List.lookup] at hl
      subst hl
      simp
    · have hb : (k == k1) = false := by simpa using hk
      simp [List.lookup, hb] at hl
      exact List.mem_cons_of_mem _ (ih hl)

theorem lookup_of_mem {l : List (String × Addr)} {p : String × Addr} (hp : p ∈ l) :
    ∃ a, l.lookup p.1 = some a := by
  induction l with
  | nil => simp at hp
  | cons q t ih =>
    obtain ⟨k1, a1⟩ := q
    by_cases hk : p.1 = k1
    · exact ⟨a1, by simp [List.lookup, hk]⟩
    · have hb : (p.1 == k1) = false := by simpa using hk
      have hpt : p ∈ t := by
        rcases List.mem_cons.mp hp with rfl | hpt
        · exact absurd rfl hk
        · exact hpt
      obtain ⟨a, ha⟩ := ih hpt
      exact ⟨a, by simp [List.lookup, hb, ha]⟩

theorem mergedGroup_config {h : Heap} {role : ServerSpec} {g : RoleGroupSpec} (hc : h.Closed)
    (hrm : role ∈ h.servers) (hgm : g ∈ h.groups)
    (hcons : role.Config.isSome ∨ g.Config.isSome) :
    ∃ ec ecfg sel, (mergedGroup h role g).Config = some ec ∧
      (mergedHeap h role g).configs[ec]? = some ecfg ∧
      mapContent (mergedHeap h role g).maps ecfg.NodeSelector = some sel := by
  have hn : "Config" ∉ ["RoleGroups"] := by decide
  have hc1 := mergedHeap_closed hc hrm hgm
  have hmem : mergedGroup h role g ∈ (mergedHeap h role g).groups := by simp [mergedHeap]
  have hex : ∃ ec, (mergedGroup h role g).Config = some ec := by
    rcases hgc : g.Config with _ | gc
    · rcases hrc : role.Config with _ | rc
      · simp [hgc, hrc] at hcons
      · exact ⟨rc, by simp [mergedGroup, hgc, hrc, mergeField_none hn]⟩
    · exact ⟨h.configs.length, by simp [mergedGroup, hgc, mergeField_some]⟩
  obtain ⟨ec, hec⟩ := hex
  obtain ⟨ecfg, hecfg, hecm⟩ := getElem?_of_lt (hc1.groupConfig _ hmem ec (by simp [hec]))
  obtain ⟨sel, hsel⟩ := mapContent_ok ecfg.NodeSelector (hc1.configSelector ecfg hecm)
  exact ⟨ec, ecfg, sel, hec, hecfg, hsel⟩

theorem RegisterResource_eval (ToLower : String → String) (m : RoleGroup) (h : Heap)
    (ra ga : Addr) (role : ServerSpec) (g : RoleGroupSpec) (rl : StringMap) (ec : Addr)
    (ecfg : ConfigSpec) (sel : StringMap)
    (hc : h.Closed) (hs : m.Instance.Spec.Server = some ra) (hr : h.servers[ra]? = some role)
    (hl : role.RoleGroups.lookup m.GroupName = some ga) (hg : h.groups[ga]? = some g)
    (hrl : mapContent h.maps m.RoleLabels = some rl)
    (hec : (mergedGroup h role g).Config = some ec)
    (hecfg : (mergedHeap h role g).configs[ec]? = some ecfg)
    (hsel : mapContent (mergedHeap h role g).maps ecfg.NodeSelector = some sel) :
    m.RegisterResource ToLower h =
      .ok ({ m with Reconcilers :=
              [NewServiceAccount m.GroupName (some (mergedHeap h role g).maps.length)
                 (some h.groups.length),
               NewConfigMap m.GroupName (some (mergedHeap h role g).maps.length)
                 (some h.groups.length),
               NewServerLogging m.GroupName (some (mergedHeap h role g).maps.length)
                 (some h.groups.length) { cfg := some h.groups.length } common.Server,
               common.NewReconcilePDB (some (mergedHeap h role g).maps.length) m.GroupName
                 ecfg.PodDisruptionBudget,
               NewStatefulSet m.GroupName (some (mergedHeap h role g).maps.length)
                 (some h.groups.length) (mergedGroup h role g).Replicas,
               NewServiceHeadless m.GroupName (some (mergedHeap h role g).maps.length)
                 (some h.groups.length)] },
           Heap.mk h.servers (mergedHeap h role g).groups (mergedHeap h role g).configs
             ((mergedHeap h role g).maps ++ [mergedLabels ToLower m.GroupName rl sel])) := by
  have hx := mergedHeap_extends h role g
  have hg1 : (mergedHeap h role g).groups[h.groups.length]? = some (mergedGroup h role g) := by
    simp [mergedHeap]
  have hml := MergeLabels_eval ToLower m (mergedHeap h role g) h.groups.length ec
    (mergedGroup h role g) ecfg rl sel hg1 hec hecfg (mapContent_of_extends hx.maps hrl) hsel
  simp only [RoleGroup.RegisterResource, RoleGroup.MergeGroupConfigSpec, hs, load, hr, hl,
    mergeConfig_eval h ra ga role g hc hr hg, hml, hg1, hec, hecfg]
  rfl

theorem hasConfig_extends {h h1 : Heap} {r : Role} {ra : Addr} {role : ServerSpec}
    (hinv : RoleInv h r ra role) (hx : h.Extends h1) {name : String}
    (hcfg : HasConfig h role name) : HasConfig h1 role name := by
  intro ga hga g hg
  have hrm : role ∈ h.servers := List.getElem?_mem hinv.roleCell
  have hlt := hinv.closed.serverGroups role hrm _ (lookup_mem hga)
  exact hcfg ga hga g ((getElem?_of_extends hx.groups hlt).symm.trans hg)

theorem NewRoleGroupReconciler_ok (ToLower : String → String) {h : Heap} {r : Role} {ra : Addr}
    {role : ServerSpec} (hinv : RoleInv h r ra role) {p : String × Addr}
    (hp : p ∈ role.RoleGroups) (hcfg : HasConfig h role p.1) :
    ∃ gr h1, NewRoleGroupReconciler ToLower h r.Instance p.1 r.Labels = .ok (gr, h1) ∧
      RoleInv h1 r ra role ∧ h.Extends h1 := by
  obtain ⟨ga, hl⟩ := lookup_of_mem hp
  have hrm : role ∈ h.servers := List.getElem?_mem hinv.roleCell
  have hga := hinv.closed.serverGroups role hrm _ (lookup_mem hl)
  obtain ⟨g, hg, hgm⟩ := getElem?_of_lt hga
  have hcons := hcfg ga hl g hg
  obtain ⟨ec, ecfg, sel, hec, hecfg, hsel⟩ := mergedGroup_config hinv.closed hrm hgm hcons
  obtain ⟨rl, hrl⟩ := mapContent_ok r.Labels hinv.labels
  have hx := mergedHeap_extends h role g
  have hc1 := mergedHeap_closed hinv.closed hrm hgm
  refine ⟨_, _, RegisterResource_eval ToLower
    { Instance := r.Instance, GroupName := p.1, RoleLabels := r.Labels, Reconcilers := [] }
    h ra ga role g rl ec ecfg sel hinv.closed hinv.server hinv.roleCell hl hg hrl hec hecfg hsel,
    ?_, ?_⟩
  · refine ⟨closed_maps_append hc1 _, hinv.server, hinv.roleCell, ?_⟩
    intro n hn
    exact lt_length_append _ (lt_length_append _ (hinv.labels n hn))
  · exact ⟨rfl, hx.groups, hx.configs, hx.maps.trans (List.prefix_append _ _)⟩

theorem invokeGroups_ok {W : Type} (ToLower : String → String) (env : Env W) (r : Role)
    (ra : Addr) (role : ServerSpec) (gs : List (String × Addr))
    (hsub : ∀ p ∈ gs, p ∈ role.RoleGroups) (s : Sys W) (hinv : RoleInv s.heap r ra role)
    (hcfg : ∀ p ∈ gs, HasConfig s.heap role p.1) :
    ∃ outs s2, invokeGroups ToLower env r (gs.map Prod.fst) s = .ok (outs, s2) ∧
      RoleInv s2.heap r ra role ∧ s.heap.Extends s2.heap ∧ outs.length = gs.length ∧
      s2.trace = s.trace ++ List.zipWith Event.group (gs.map Prod.fst) outs := by
  induction gs generalizing s with
  | nil => exact ⟨[], s, rfl, hinv, Heap.Extends.refl _, rfl, by simp⟩
  | cons p rest ih =>
    obtain ⟨gr, h1, hnew, hinv1, hx⟩ :=
      NewRoleGroupReconciler_ok ToLower hinv (hsub p (List.mem_cons_self _ _))
        (hcfg p (List.mem_cons_self _ _))
    obtain ⟨outs, s2, hrun, hinv2, hx2, hlen, htr⟩ := ih
      (fun q hq => hsub q (List.mem_cons_of_mem _ hq))
      { heap := h1, world := (env.ReconcileGroup gr h1 s.world).2,
        trace := s.trace ++ [Event.group p.1 (env.ReconcileGroup gr h1 s.world).1] } hinv1
      (fun q hq => hasConfig_extends hinv hx (hcfg q (List.mem_cons_of_mem _ hq)))
    refine ⟨(env.ReconcileGroup gr h1 s.world).1 :: outs, s2, ?_, hinv2, hx.trans hx2,
      by simp [hlen], ?_⟩
    · simp only [List.map_cons, invokeGroups, hnew, hrun]
    · simp [htr]

theorem reconcileGroups_after_done {W : Type} (ToLower : String → String) (env : Env W)
    (r : Role) (pre rest : List (String × Addr)) (s s2 : Sys W) (outs : List Outcome)
    (hrun : invokeGroups ToLower env r (pre.map Prod.fst) s = .ok (outs, s2))
    (hdone : ∀ o ∈ outs, o.Done) :
    reconcileGroups ToLower env r (pre ++ rest) s = reconcileGroups ToLower env r rest s2 := by
  induction pre generalizing s outs with
  | nil =>
    simp only [List.map_nil, invokeGroups] at hrun
    cases hrun
    rfl
  | cons p pre1 ih =>
    obtain ⟨name, a⟩ := p
    simp only [List.map_cons, invokeGroups] at hrun
    rcases hnew : NewRoleGroupReconciler ToLower s.heap r.Instance name r.Labels with e | ⟨gr, h1⟩
    · simp [hnew] at hrun
    · simp only [hnew] at hrun
      rcases hrest : invokeGroups ToLower env r (pre1.map Prod.fst)
          { heap := h1, world := (env.ReconcileGroup gr h1 s.world).2,
            trace := s.trace ++ [Event.group name (env.ReconcileGroup gr h1 s.world).1] }
        with e | ⟨outs1, s3⟩
      · simp [hrest] at hrun
      · simp only [hrest] at hrun
        cases hrun
        have hd := hdone _ (List.mem_cons_self _ _)
        simp only [List.cons_append, reconcileGroups, hnew, hd.1, if_neg hd.2]
        exact ih _ outs1 hrest (fun o ho => hdone o (List.mem_cons_of_mem _ ho))

theorem reconcileGroups_stop {W : Type} (ToLower : String → String) (env : Env W)
    (r : Role) (g : String × Addr) (post : List (String × Addr)) (s : Sys W)
    (gr : RoleGroup) (h1 : Heap)
    (hnew : NewRoleGroupReconciler ToLower s.heap r.Instance g.1 r.Labels = .ok (gr, h1))
    (hnd : ¬ (env.ReconcileGroup gr h1 s.world).1.Done) :
    reconcileGroups ToLower env r (g :: post) s =
      .ok ((env.ReconcileGroup gr h1 s.world).1.propagated,
        { heap := h1, world := (env.ReconcileGroup gr h1 s.world).2,
          trace := s.trace ++ [Event.group g.1 (env.ReconcileGroup gr h1 s.world).1] }) := by
  obtain ⟨name, a⟩ := g
  simp only [reconcileGroups, hnew]
  rcases herr : (env.ReconcileGroup gr h1 s.world).1.2 with _ | err
  · have hreq : (env.ReconcileGroup gr h1 s.world).1.1.RequeueAfter > 0 := by
      by_contra hcon
      exact hnd ⟨herr, hcon⟩
    simp only [if_pos hreq, Outcome.propagated, herr]
  · simp only [Outcome.propagated, herr]

theorem viewGroup_cell {h : Heap} {a : Addr} {v : RoleGroupView}
    (hv : viewGroup h (some a) = .ok v) :
    ∃ g, h.groups[a]? = some g ∧ v.Replicas = g.Replicas ∧ viewConfig h g.Config = .ok v.Config := by
  unfold viewGroup load at hv
  rcases hg : h.groups[a]? with _ | g
  · simp [hg] at hv
  · rcases hcv : viewConfig h g.Config with e | c
    · simp [hg, hcv] at hv
    · simp [hg, hcv] at hv
      subst hv
      exact ⟨g, rfl, rfl, hcv⟩

/-- C1: every field the override sets to a non-zero value is kept in the
effective spec, whatever the role has: the replica count, and each sub-field of
the override's config block, whether or not the role has a config block too.
A config block the override has stays present, and it is the override's block
unchanged when the role has no config block. -/
theorem mergeConfig_override_wins (h : Heap) (ra ga : Addr) (role : ServerSpec)
    (ov : RoleGroupView) (hc : h.Closed) (hr : h.servers[ra]? = some role)
    (hov : viewGroup h (some ga) = .ok ov) :
    ∃ e h1 ev, mergeConfig h (some ra) (some ga) = .ok (e, h1) ∧ viewGroup h1 e = .ok ev ∧
      (ov.Replicas ≠ 0 → ev.Replicas = ov.Replicas) ∧
      (∀ oc, ov.Config = some oc → ∃ ec, ev.Config = some ec ∧
        (∀ p, oc.PodDisruptionBudget = some p → ec.PodDisruptionBudget = some p) ∧
        (∀ sel, oc.NodeSelector = some sel → ec.NodeSelector = some sel) ∧
        (role.Config = none → ec = oc)) := by
  obtain ⟨g, hg, hrep, hgv⟩ := viewGroup_cell hov
  have hrm : role ∈ h.servers := List.getElem?_mem hr
  have hgm : g ∈ h.groups := List.getElem?_mem hg
  obtain ⟨rv, hrv⟩ := viewConfig_ok hc role.Config (hc.serverConfig role hrm)
  refine ⟨_, _, _, mergeConfig_eval h ra ga role g hc hr hg,
    viewGroup_merged hc hrm hgm hgv hrv, ?_, ?_⟩
  · intro hne
    have hne2 : g.Replicas ≠ 0 := by rw [← hrep]; exact hne
    simp [mergeField, hne2, hrep]
  · intro oc hoc
    rcases rv with _ | rc
    · refine ⟨oc, by simp [hoc, mergeConfigView], fun p hp => hp, fun sel hs => hs, fun _ => rfl⟩
    · refine ⟨_, by rw [hoc]; rfl, ?_, ?_, ?_⟩
      · intro p hp
        simp [hp, mergeField_some]
      · intro sel hs
        simp [hs, mergeField_some]
      · intro hnone
        simp [hnone, viewConfig] at hrv

theorem exampleHeap_closed : exampleHeap.Closed := ⟨by decide, by decide, by decide, by decide⟩

/-- C1 at the example store: the group Analytics keeps its five replicas and the
node selector of its config block, though the role has three replicas. -/
theorem mergeConfig_override_wins_witness :
    ∃ e h1 ev, mergeConfig exampleHeap (some 0) (some 1) = .ok (e, h1) ∧
      viewGroup h1 e = .ok ev ∧ ev.Replicas = 5 ∧
      ∃ ec, ev.Config = some ec ∧
        ec.NodeSelector = some (fun k => if k = "disk" then some "ssd" else none) := by
  obtain ⟨e, h1, ev, hm, hv, hrep, hcfg⟩ :=
    mergeConfig_override_wins exampleHeap 0 1 exampleRole
      { Replicas := 5,
        Config := some { PodDisruptionBudget := none,
                         NodeSelector := some (fun k => if k = "disk" then some "ssd" else none) } }
      exampleHeap_closed rfl rfl
  obtain ⟨ec, hec, -, hsel, -⟩ := hcfg _ rfl
  exact ⟨e, h1, ev, hm, hv, hrep (by decide), ec, hec, hsel _ rfl⟩

/-- C2: every field the override leaves unset takes the role's value: the
replica count; the whole config block when the override has none; each unset
sub-field of the config block when both have one. A field the role does not
set either stays unset, and so does an unset sub-field when the role has no
config block. -/
theorem mergeConfig_inherit (h : Heap) (ra ga : Addr) (role : ServerSpec)
    (ov : RoleGroupView) (rv : Option ConfigView) (hc : h.Closed)
    (hr : h.servers[ra]? = some role) (hov : viewGroup h (some ga) = .ok ov)
    (hrv : viewConfig h role.Config = .ok rv) :
    ∃ e h1 ev, mergeConfig h (some ra) (some ga) = .ok (e, h1) ∧ viewGroup h1 e = .ok ev ∧
      (ov.Replicas = 0 → ev.Replicas = role.Replicas) ∧
      (ov.Config = none → ev.Config = rv) ∧
      (∀ oc rc, ov.Config = some oc → rv = some rc → ∃ ec, ev.Config = some ec ∧
        (oc.PodDisruptionBudget = none → ec.PodDisruptionBudget = rc.PodDisruptionBudget) ∧
        (oc.NodeSelector = none → ec.NodeSelector = rc.NodeSelector)) ∧
      (∀ oc, ov.Config = some oc → rv = none → ev.Config = some oc) := by
  obtain ⟨g, hg, hrep, hgv⟩ := viewGroup_cell hov
  have hrm : role ∈ h.servers := List.getElem?_mem hr
  have hgm : g ∈ h.groups := List.getElem?_mem hg
  have hn1 : "PodDisruptionBudget" ∉ ([] : List String) := by decide
  have hn2 : "NodeSelector" ∉ ([] : List String) := by decide
  refine ⟨_, _, _, mergeConfig_eval h ra ga role g hc hr hg,
    viewGroup_merged hc hrm hgm hgv hrv, ?_, ?_, ?_, ?_⟩
  · intro hz
    have hz2 : g.Replicas = 0 := by rw [← hrep]; exact hz
    by_cases hrz : role.Replicas = 0 <;> simp [mergeField, hz2, hrz]
  · intro hnone
    simp only [hnone, mergeConfigView]
  · intro oc rc hoc hrc
    subst hrc
    refine ⟨_, by rw [hoc]; rfl, ?_, ?_⟩
    · intro hp
      simp only [hp, mergeField_none hn1]
    · intro hs
      simp only [hs, mergeField_none hn2]
  · intro oc hoc hrc
    subst hrc
    simp only [hoc, mergeConfigView]

/-- C2 at the example store: the role has three replicas and the group default
has the empty override, so the effective spec has three replicas, and its
config block is the role's. -/
theorem mergeConfig_inherit_witness :
    ∃ e h1 ev, mergeConfig exampleHeap (some 0) (some 0) = .ok (e, h1) ∧
      viewGroup h1 e = .ok ev ∧ ev.Replicas = 3 ∧
      ev.Config.map (fun c => c.PodDisruptionBudget) = some (some { MaxUnavailable := 1 }) := by
  obtain ⟨e, h1, ev, hm, hv, hrep, hcfg, -⟩ :=
    mergeConfig_inherit exampleHeap 0 0 exampleRole { Replicas := 0, Config := none }
      (some { PodDisruptionBudget := some { MaxUnavailable := 1 }, NodeSelector := none })
      exampleHeap_closed rfl rfl rfl
  exact ⟨e, h1, ev, hm, hv, hrep rfl, by rw [hcfg rfl]; rfl⟩

/-- The second half of the example of C2: an override with five replicas gives
an effective spec with five replicas. -/
theorem mergeConfig_replicas_five :
    (mergeConfig exampleHeap (some 0) (some 1)).toOption.map
      (fun x => (viewGroup x.2 x.1).toOption.map (fun v => v.Replicas)) = some (some 5) := by
  decide

/-- C3: `mergeConfig` writes no cell the store had before the call: the role
spec and the override, with their config blocks and node selectors, are as they
were, and the effective spec is a new object. A second call with the same
arguments, made after the first, gives an effective spec with the same
content. -/
theorem mergeConfig_no_mutation (h : Heap) (ra ga : Addr) (role : ServerSpec)
    (g : RoleGroupSpec) (hc : h.Closed) (hr : h.servers[ra]? = some role)
    (hg : h.groups[ga]? = some g) :
    ∃ e1 h1 e2 h2 v, mergeConfig h (some ra) (some ga) = .ok (e1, h1) ∧
      mergeConfig h1 (some ra) (some ga) = .ok (e2, h2) ∧
      h.Extends h1 ∧ h1.Extends h2 ∧
      h1.servers[ra]? = some role ∧ viewConfig h1 role.Config = viewConfig h role.Config ∧
      h1.groups[ga]? = some g ∧ viewGroup h1 (some ga) = viewGroup h (some ga) ∧
      e1 ≠ some ga ∧
      viewGroup h1 e1 = .ok v ∧ viewGroup h2 e2 = .ok v ∧ viewGroup h2 e1 = .ok v := by
  have hrm : role ∈ h.servers := List.getElem?_mem hr
  have hgm : g ∈ h.groups := List.getElem?_mem hg
  have hga : ga < h.groups.length := (List.getElem?_eq_some.mp hg).1
  have hx := mergedHeap_extends h role g
  have hc1 := mergedHeap_closed hc hrm hgm
  have hr1 : (mergedHeap h role g).servers[ra]? = some role := hr
  have hg1 : (mergedHeap h role g).groups[ga]? = some g :=
    (getElem?_of_extends hx.groups hga).trans hg
  have hx2 := mergedHeap_extends (mergedHeap h role g) role g
  obtain ⟨gv, hgv⟩ := viewConfig_ok hc g.Config (hc.groupConfig g hgm)
  obtain ⟨rv, hrv⟩ := viewConfig_ok hc role.Config (hc.serverConfig role hrm)
  have hrvx := viewConfig_extends hx hc role.Config (hc.serverConfig role hrm)
  have hgvx := viewConfig_extends hx hc g.Config (hc.groupConfig g hgm)
  have hv1 := viewGroup_merged hc hrm hgm hgv hrv
  have hv2 := viewGroup_merged hc1 (List.getElem?_mem hr1) (List.getElem?_mem hg1)
    (hgvx.trans hgv) (hrvx.trans hrv)
  have hlt1 : h.groups.length < (mergedHeap h role g).groups.length := by simp [mergedHeap]
  refine ⟨_, _, _, _, _, mergeConfig_eval h ra ga role g hc hr hg,
    mergeConfig_eval _ ra ga role g hc1 hr1 hg1, hx, hx2, hr1, hrvx, hg1,
    viewGroup_extends hx hc ga hga, ?_, hv1, hv2,
    (viewGroup_extends hx2 hc1 h.groups.length hlt1).trans hv1⟩
  intro heq
  have heq2 : h.groups.length = ga := Option.some.inj heq
  exact absurd heq2 (Nat.ne_of_gt hga)

/-- C3 at the example store, for the group Analytics: two calls in a row give
effective specs with the same content, the override is still group 1 of the
store, and the first effective spec is another object. -/
theorem mergeConfig_no_mutation_witness :
    ∃ e1 h1 e2 h2 v, mergeConfig exampleHeap (some 0) (some 1) = .ok (e1, h1) ∧
      mergeConfig h1 (some 0) (some 1) = .ok (e2, h2) ∧
      h1.groups[1]? = some analyticsOverride ∧ e1 ≠ some 1 ∧
      viewGroup h1 e1 = .ok v ∧ viewGroup h2 e2 = .ok v := by
  obtain ⟨e1, h1, e2, h2, v, hm1, hm2, -, -, -, -, hg1, -, hne, hv1, hv2, -⟩ :=
    mergeConfig_no_mutation exampleHeap 0 1 exampleRole analyticsOverride exampleHeap_closed
      rfl rfl
  exact ⟨e1, h1, e2, h2, v, hm1, hm2, hg1, hne, hv1, hv2⟩

/-- C4: the identity key of the label map `RoleGroup.MergeLabels` builds is the
lower-cased group name, whatever the role labels and the node selector of the
spec hold under that key. -/
theorem MergeLabels_identity (ToLower : String → String) (m : RoleGroup) (h : Heap)
    (ea ec : Addr) (eff : RoleGroupSpec) (ecfg : ConfigSpec) (rl sel : StringMap)
    (hg : h.groups[ea]? = some eff) (hec : eff.Config = some ec)
    (hcfg : h.configs[ec]? = some ecfg)
    (hrl : mapContent h.maps m.RoleLabels = some rl)
    (hsel : mapContent h.maps ecfg.NodeSelector = some sel) :
    ∃ la h1 out, RoleGroup.MergeLabels ToLower m h (some ea) = .ok (some la, h1) ∧
      h1.maps[la]? = some out ∧
      out "app.kubernetes.io/instance" = some (ToLower m.GroupName) := by
  refine ⟨_, _, mergedLabels ToLower m.GroupName rl sel,
    MergeLabels_eval ToLower m h ea ec eff ecfg rl sel hg hec hcfg hrl hsel,
    by simp, ?_⟩
  simp [mergedLabels, StringMap.set]

/-- C4 at the example store: role labels with tier server and the group name
Analytics give a label map with tier server and the identity key analytics,
and no other key. -/
theorem MergeLabels_identity_witness :
    ∃ la h1 out,
      RoleGroup.MergeLabels asciiLower
        { Instance := exampleCluster, GroupName := "Analytics", RoleLabels := some 1,
          Reconcilers := [] } exampleHeap (some 2) = .ok (some la, h1) ∧
      h1.maps[la]? = some out ∧
      out "app.kubernetes.io/instance" = some "analytics" ∧ out "tier" = some "server" ∧
      ∀ k, k ≠ "app.kubernetes.io/instance" → k ≠ "tier" → out k = none := by
  obtain ⟨la, h1, out, hm, hout, hid⟩ :=
    MergeLabels_identity asciiLower
      { Instance := exampleCluster, GroupName := "Analytics", RoleLabels := some 1,
        Reconcilers := [] } exampleHeap 2 0 { Replicas := 1, Config := some 0 }
      { PodDisruptionBudget := some { MaxUnavailable := 1 }, NodeSelector := none }
      (fun k => if k = "tier" then some "server" else none) emptyMap rfl rfl rfl rfl rfl
  have hev := MergeLabels_eval asciiLower
      { Instance := exampleCluster, GroupName := "Analytics", RoleLabels := some 1,
        Reconcilers := [] } exampleHeap 2 0 { Replicas := 1, Config := some 0 }
      { PodDisruptionBudget := some { MaxUnavailable := 1 }, NodeSelector := none }
      (fun k => if k = "tier" then some "server" else none) emptyMap rfl rfl rfl rfl rfl
  rw [hev] at hm
  cases hm
  have hout2 : out = mergedLabels asciiLower "Analytics"
      (fun k => if k = "tier" then some "server" else none) emptyMap := by
    have : (exampleHeap.maps ++ [mergedLabels asciiLower "Analytics"
      (fun k => if k = "tier" then some "server" else none) emptyMap])[exampleHeap.maps.length]?
        = some out := hout
    simpa using this.symm
  refine ⟨_, _, out, rfl, hout, ?_, ?_, ?_⟩
  · rw [hid]; decide
  · rw [hout2]; decide
  · intro k hk1 hk2
    rw [hout2]
    simp [mergedLabels, StringMap.set, mergeEntries, emptyMap, hk1, hk2]

/-- C5: `RoleGroup.MergeLabels` returns a new map. Its keys are the keys of the
role labels, the keys of the node selector and the identity key; under any
other key than the identity key it holds the value of the node selector when
the selector has the key, and else the value of the role labels. No cell the
store had before is written, so the role labels are as they were. -/
theorem MergeLabels_overlay (ToLower : String → String) (m : RoleGroup) (h : Heap)
    (ea ec : Addr) (eff : RoleGroupSpec) (ecfg : ConfigSpec) (rl sel : StringMap)
    (hg : h.groups[ea]? = some eff) (hec : eff.Config = some ec)
    (hcfg : h.configs[ec]? = some ecfg)
    (hrl : mapContent h.maps m.RoleLabels = some rl)
    (hsel : mapContent h.maps ecfg.NodeSelector = some sel) :
    ∃ la h1 out, RoleGroup.MergeLabels ToLower m h (some ea) = .ok (some la, h1) ∧
      h1.maps[la]? = some out ∧ h.maps.length ≤ la ∧ m.RoleLabels ≠ some la ∧
      (∀ k, (out k).isSome ↔
        (rl k).isSome ∨ (sel k).isSome ∨ k = "app.kubernetes.io/instance") ∧
      (∀ k, k ≠ "app.kubernetes.io/instance" →
        out k = match sel k with
          | some v => some v
          | none => rl k) ∧
      h.Extends h1 ∧ mapContent h1.maps m.RoleLabels = some rl := by
  refine ⟨_, _, mergedLabels ToLower m.GroupName rl sel,
    MergeLabels_eval ToLower m h ea ec eff ecfg rl sel hg hec hcfg hrl hsel,
    by simp, Nat.le_refl _, ?_, ?_, ?_,
    ⟨rfl, List.prefix_refl _, List.prefix_refl _, List.prefix_append _ _⟩,
    mapContent_of_extends (List.prefix_append _ _) hrl⟩
  · intro heq
    exact absurd (mapContent_lt hrl _ heq) (Nat.lt_irrefl _)
  · intro k
    by_cases hk : k = "app.kubernetes.io/instance"
    · simp [mergedLabels, StringMap.set, hk]
    · rcases hs : sel k with _ | v <;> rcases hr : rl k with _ | w <;>
        simp [mergedLabels, StringMap.set, mergeEntries, emptyMap, hk, hs, hr]
  · intro k hk
    rcases hs : sel k with _ | v <;> rcases hr : rl k with _ | w <;>
      simp [mergedLabels, StringMap.set, mergeEntries, emptyMap, hk, hs, hr]

/-- C5 at the example store: for a spec whose node selector has disk ssd and role
labels with tier server, the new map has both, and the role labels are still
map 1 of the store. -/
theorem MergeLabels_overlay_witness :
    ∃ la h1 out,
      RoleGroup.MergeLabels asciiLower
        { Instance := exampleCluster, GroupName := "Analytics", RoleLabels := some 1,
          Reconcilers := [] } exampleHeap (some 1) = .ok (some la, h1) ∧
      h1.maps[la]? = some out ∧ la ≠ 1 ∧
      out "disk" = some "ssd" ∧ out "tier" = some "server" ∧
      h1.maps[1]? = exampleHeap.maps[1]? := by
  obtain ⟨la, h1, out, hm, hout, hle, hne, -, hval, hx, -⟩ :=
    MergeLabels_overlay asciiLower
      { Instance := exampleCluster, GroupName := "Analytics", RoleLabels := some 1,
        Reconcilers := [] } exampleHeap 1 1 analyticsOverride
      { PodDisruptionBudget := none, NodeSelector := some 0 }
      (fun k => if k = "tier" then some "server" else none)
      (fun k => if k = "disk" then some "ssd" else none) rfl rfl rfl rfl rfl
  refine ⟨la, h1, out, hm, hout, fun heq => hne (by rw [heq]), ?_, ?_,
    getElem?_of_extends hx.maps (by decide)⟩
  · rw [hval "disk" (by decide)]; decide
  · rw [hval "tier" (by decide)]; decide

/-- C8: when the group's override or the role has a config block,
`RegisterResource` sets the reconciler list to six entries, in the order
service account, config map, logging config, disruption budget, stateful set,
headless service. Every one is built with the effective spec that
`MergeGroupConfigSpec` returned and the label map that `MergeLabels` returned
for it; the disruption budget gets the policy of that spec's config block and
the stateful set that spec's replica count. -/
theorem RegisterResource_order (ToLower : String → String) (m : RoleGroup) (h : Heap)
    (ra ga : Addr) (role : ServerSpec) (g : RoleGroupSpec)
    (hc : h.Closed) (hs : m.Instance.Spec.Server = some ra) (hr : h.servers[ra]? = some role)
    (hl : role.RoleGroups.lookup m.GroupName = some ga) (hg : h.groups[ga]? = some g)
    (hlab : ∀ n ∈ m.RoleLabels, n < h.maps.length)
    (hcons : role.Config.isSome ∨ g.Config.isSome) :
    ∃ cfg h1 labels h2 eff config m1,
      m.MergeGroupConfigSpec h = .ok (cfg, h1) ∧
      RoleGroup.MergeLabels ToLower m h1 cfg = .ok (labels, h2) ∧
      load h2.groups cfg = .ok eff ∧ load h2.configs eff.Config = .ok config ∧
      m.RegisterResource ToLower h = .ok (m1, h2) ∧
      m1.Reconcilers =
        [ResourceReconciler.ServiceAccount m.GroupName labels cfg,
         ResourceReconciler.ConfigMap m.GroupName labels cfg,
         ResourceReconciler.ServerLogging m.GroupName labels cfg { cfg := cfg } common.Server,
         ResourceReconciler.PDB labels m.GroupName config.PodDisruptionBudget,
         ResourceReconciler.StatefulSet m.GroupName labels cfg eff.Replicas,
         ResourceReconciler.ServiceHeadless m.GroupName labels cfg] := by
  have hrm : role ∈ h.servers := List.getElem?_mem hr
  have hgm : g ∈ h.groups := List.getElem?_mem hg
  obtain ⟨ec, ecfg, sel, hec, hecfg, hsel⟩ := mergedGroup_config hc hrm hgm hcons
  obtain ⟨rl, hrl⟩ := mapContent_ok m.RoleLabels hlab
  have hx := mergedHeap_extends h role g
  have hg1 : (mergedHeap h role g).groups[h.groups.length]? = some (mergedGroup h role g) := by
    simp [mergedHeap]
  refine ⟨_, _, _, _, mergedGroup h role g, ecfg, _, ?_,
    MergeLabels_eval ToLower m (mergedHeap h role g) h.groups.length ec
      (mergedGroup h role g) ecfg rl sel hg1 hec hecfg (mapContent_of_extends hx.maps hrl) hsel,
    ?_, ?_,
    RegisterResource_eval ToLower m h ra ga role g rl ec ecfg sel hc hs hr hl hg hrl hec hecfg
      hsel, rfl⟩
  · simp only [RoleGroup.MergeGroupConfigSpec, hs, load, hr, hl,
      mergeConfig_eval h ra ga role g hc hr hg]
  · simp only [load, hg1]
  · simp only [hec, load, hecfg]

/-- C8 at the example store, for the group Analytics: the six reconcilers, all
with the effective spec at group 3 and the label map at map 3. -/
theorem RegisterResource_order_witness :
    ∃ m1 h2,
      RoleGroup.RegisterResource asciiLower
        { Instance := exampleCluster, GroupName := "Analytics", RoleLabels := some 1,
          Reconcilers := [] } exampleHeap = .ok (m1, h2) ∧
      m1.Reconcilers =
        [ResourceReconciler.ServiceAccount "Analytics" (some 3) (some 3),
         ResourceReconciler.ConfigMap "Analytics" (some 3) (some 3),
         ResourceReconciler.ServerLogging "Analytics" (some 3) (some 3) { cfg := some 3 } "server",
         ResourceReconciler.PDB (some 3) "Analytics" (some { MaxUnavailable := 1 }),
         ResourceReconciler.StatefulSet "Analytics" (some 3) (some 3) 5,
         ResourceReconciler.ServiceHeadless "Analytics" (some 3) (some 3)] := by
  obtain ⟨cfg, h1, labels, h2, eff, config, m1, hmg, hml, hle, hlc, hreg, hlist⟩ :=
    RegisterResource_order asciiLower
      { Instance := exampleCluster, GroupName := "Analytics", RoleLabels := some 1,
        Reconcilers := [] } exampleHeap 0 1 exampleRole analyticsOverride exampleHeap_closed
      rfl rfl rfl rfl (by decide) (by decide)
  refine ⟨m1, h2, hreg, ?_⟩
  have hmg2 : RoleGroup.MergeGroupConfigSpec
      { Instance := exampleCluster, GroupName := "Analytics", RoleLabels := some 1,
        Reconcilers := [] } exampleHeap
      = .ok (some 3, mergedHeap exampleHeap exampleRole analyticsOverride) := by
    simp only [RoleGroup.MergeGroupConfigSpec]
    exact mergeConfig_eval exampleHeap 0 1 exampleRole analyticsOverride exampleHeap_closed
      rfl rfl
  rw [hmg2] at hmg
  cases hmg
  have hml2 := MergeLabels_eval asciiLower
      { Instance := exampleCluster, GroupName := "Analytics", RoleLabels := some 1,
        Reconcilers := [] } (mergedHeap exampleHeap exampleRole analyticsOverride) 3 2
      { Replicas := 5, Config := some 2 }
      { PodDisruptionBudget := some { MaxUnavailable := 1 }, NodeSelector := some 2 }
      (fun k => if k = "tier" then some "server" else none)
      (fun k => if k = "disk" then some "ssd" else none) rfl rfl rfl rfl rfl
  rw [hml2] at hml
  cases hml
  cases hle
  cases hlc
  rw [hlist]
  rfl

/-- When neither the role nor the override has a config block, the effective
spec has none, and `RegisterResource` stops with a nil pointer dereference. -/
theorem RegisterResource_nil_config (ToLower : String → String) (m : RoleGroup) (h : Heap)
    (ra ga : Addr) (role : ServerSpec) (g : RoleGroupSpec)
    (hc : h.Closed) (hs : m.Instance.Spec.Server = some ra) (hr : h.servers[ra]? = some role)
    (hl : role.RoleGroups.lookup m.GroupName = some ga) (hg : h.groups[ga]? = some g)
    (hlab : ∀ n ∈ m.RoleLabels, n < h.maps.length)
    (hrc : role.Config = none) (hgc : g.Config = none) :
    m.RegisterResource ToLower h = .error .nilPointerDereference := by
  have hn : "Config" ∉ ["RoleGroups"] := by decide
  have hg1 : (mergedHeap h role g).groups[h.groups.length]? = some (mergedGroup h role g) := by
    simp [mergedHeap]
  have hcfg : (mergedGroup h role g).Config = none := by
    simp [mergedGroup, hrc, hgc, mergeField_none hn]
  have hmaps : (mergedHeap h role g).maps = h.maps := by
    simp [mergedHeap, mergedMaps, deref, hgc]
  simp only [RoleGroup.RegisterResource, RoleGroup.MergeGroupConfigSpec, hs, load, hr, hl,
    mergeConfig_eval h ra ga role g hc hr hg]
  rcases hrl : m.RoleLabels with _ | la
  · simp [RoleGroup.MergeLabels, MapMerge, hrl, load, hg1, hcfg]
  · have hlt : la < h.maps.length := hlab la (by simp [hrl])
    obtain ⟨rl, hrlm, -⟩ := getElem?_of_lt hlt
    simp [RoleGroup.MergeLabels, MapMerge, hrl, load, store, hg1, hcfg, hmaps, hrlm,
      List.getElem?_append_left hlt]

/-- C9 fails on the code: in the store where neither the role nor the group
default has a config block, `mergeConfig` returns an effective spec without a
config block, and `MergeLabels`, `RegisterResource` and the constructor stop
with a nil pointer dereference. -/
theorem NewRoleGroupReconciler_nil_config_fault :
    (∃ cfg h1 eff,
      RoleGroup.MergeGroupConfigSpec
        { Instance := exampleCluster, GroupName := "default", RoleLabels := none,
          Reconcilers := [] } bareHeap = .ok (cfg, h1) ∧
      load h1.groups cfg = .ok eff ∧ eff.Config = none ∧
      RoleGroup.MergeLabels asciiLower
        { Instance := exampleCluster, GroupName := "default", RoleLabels := none,
          Reconcilers := [] } h1 cfg = .error .nilPointerDereference) ∧
    NewRoleGroupReconciler asciiLower bareHeap exampleCluster "default" none =
      .error .nilPointerDereference :=
  ⟨⟨_, _, _, rfl, rfl, rfl, rfl⟩, rfl⟩

/-- C10 fails on the code: the config block of the example role declares a
disruption budget of one, which opens the step, and the reconciler of the step
is built with the role's own `PodDisruptionBudget` field, which is nil. -/
theorem ReconcileRole_pdb_policy_mismatch :
    Role.declaresPDB exampleHeap exampleRole = .ok true ∧
    (viewConfig exampleHeap exampleRole.Config).toOption.map
        (fun v => v.map (fun c => c.PodDisruptionBudget))
      = some (some (some { MaxUnavailable := 1 })) ∧
    (Role.ReconcileRole asciiLower
        (fixedEnv ({ Requeue := false, RequeueAfter := 5 }, none) (fun _ => doneOutcome))
        exampleRoleReconciler exampleSys).toOption.map (fun x => x.2.trace)
      = some [Event.resource (ResourceReconciler.PDB (some 1) "server" none)
          ({ Requeue := false, RequeueAfter := 5 }, none)] := by
  refine ⟨rfl, ?_, ?_⟩ <;> decide

theorem ReconcileRole_after_step {W : Type} (ToLower : String → String) (env : Env W)
    (r : Role) (s : Sys W) (ra : Addr) (role : ServerSpec) (b : Bool)
    (hs : r.Instance.Spec.Server = some ra) (hr : s.heap.servers[ra]? = some role)
    (hd : Role.declaresPDB s.heap role = .ok b) :
    (b = true →
      (env.ReconcileResource
          (common.NewReconcilePDB r.Labels common.Server role.PodDisruptionBudget)
          s.heap s.world).1.Done →
      r.ReconcileRole ToLower env s =
        reconcileGroups ToLower env r role.RoleGroups
          { heap := s.heap,
            world := (env.ReconcileResource
              (common.NewReconcilePDB r.Labels common.Server role.PodDisruptionBudget)
              s.heap s.world).2,
            trace := s.trace ++
              [Event.resource
                (common.NewReconcilePDB r.Labels common.Server role.PodDisruptionBudget)
                (env.ReconcileResource
                  (common.NewReconcilePDB r.Labels common.Server role.PodDisruptionBudget)
                  s.heap s.world).1] }) ∧
    (b = false → r.ReconcileRole ToLower env s = reconcileGroups ToLower env r role.RoleGroups s) := by
  refine ⟨?_, ?_⟩
  · intro hb hdone
    subst hb
    simp only [Role.ReconcileRole, hs, load, hr, hd, Role.RoleName, hdone.1, if_neg hdone.2]
  · intro hb
    subst hb
    simp only [Role.ReconcileRole, hs, load, hr, hd]

/-- C7: let the role's config block declare a disruption-budget policy (`b` is
true). If the step reports an error or a pending requeue, `ReconcileRole`
returns that outcome (the error with an empty result, or the pending result as
it is), the only call of the pass is the step itself, and the store is as it
was: no group reconciler is built or run. If the step is done, the groups are
reconciled after it; if no policy is declared (`b` is false), the groups are
reconciled at once. -/
theorem ReconcileRole_pdb_gate {W : Type} (ToLower : String → String) (env : Env W)
    (r : Role) (s : Sys W) (ra : Addr) (role : ServerSpec) (b : Bool)
    (hs : r.Instance.Spec.Server = some ra) (hr : s.heap.servers[ra]? = some role)
    (hd : Role.declaresPDB s.heap role = .ok b) :
    (b = true →
      ¬ (env.ReconcileResource
          (common.NewReconcilePDB r.Labels common.Server role.PodDisruptionBudget)
          s.heap s.world).1.Done →
      r.ReconcileRole ToLower env s =
        .ok ((env.ReconcileResource
            (common.NewReconcilePDB r.Labels common.Server role.PodDisruptionBudget)
            s.heap s.world).1.propagated,
          { heap := s.heap,
            world := (env.ReconcileResource
              (common.NewReconcilePDB r.Labels common.Server role.PodDisruptionBudget)
              s.heap s.world).2,
            trace := s.trace ++
              [Event.resource
                (common.NewReconcilePDB r.Labels common.Server role.PodDisruptionBudget)
                (env.ReconcileResource
                  (common.NewReconcilePDB r.Labels common.Server role.PodDisruptionBudget)
                  s.heap s.world).1] })) ∧
    (b = true →
      (env.ReconcileResource
          (common.NewReconcilePDB r.Labels common.Server role.PodDisruptionBudget)
          s.heap s.world).1.Done →
      r.ReconcileRole ToLower env s =
        reconcileGroups ToLower env r role.RoleGroups
          { heap := s.heap,
            world := (env.ReconcileResource
              (common.NewReconcilePDB r.Labels common.Server role.PodDisruptionBudget)
              s.heap s.world).2,
            trace := s.trace ++
              [Event.resource
                (common.NewReconcilePDB r.Labels common.Server role.PodDisruptionBudget)
                (env.ReconcileResource
                  (common.NewReconcilePDB r.Labels common.Server role.PodDisruptionBudget)
                  s.heap s.world).1] }) ∧
    (b = false → r.ReconcileRole ToLower env s = reconcileGroups ToLower env r role.RoleGroups s) := by
  refine ⟨?_, ?_, ?_⟩
  · intro hb hnd
    subst hb
    simp only [Role.ReconcileRole, hs, load, hr, hd, Role.RoleName]
    rcases herr : (env.ReconcileResource
        (common.NewReconcilePDB r.Labels common.Server role.PodDisruptionBudget)
        s.heap s.world).1.2 with _ | err
    · have hreq : (env.ReconcileResource
          (common.NewReconcilePDB r.Labels common.Server role.PodDisruptionBudget)
          s.heap s.world).1.1.RequeueAfter > 0 := by
        by_contra hcon
        exact hnd ⟨herr, hcon⟩
      simp only [if_pos hreq, Outcome.propagated, herr]
    · simp only [Outcome.propagated, herr]
  · exact (ReconcileRole_after_step ToLower env r s ra role b hs hr hd).1
  · exact (ReconcileRole_after_step ToLower env r s ra role b hs hr hd).2

/-- C7 at the example store: the disruption-budget step reports a requeue
after 5, and `ReconcileRole` returns it with that step as the only call. -/
theorem ReconcileRole_pdb_gate_witness :
    Role.ReconcileRole asciiLower
        (fixedEnv ({ Requeue := false, RequeueAfter := 5 }, none) (fun _ => doneOutcome))
        exampleRoleReconciler exampleSys =
      .ok (({ Requeue := false, RequeueAfter := 5 }, none),
        { heap := exampleHeap, world := (),
          trace := [Event.resource (ResourceReconciler.PDB (some 1) "server" none)
            ({ Requeue := false, RequeueAfter := 5 }, none)] }) :=
  (ReconcileRole_pdb_gate asciiLower
    (fixedEnv ({ Requeue := false, RequeueAfter := 5 }, none) (fun _ => doneOutcome))
    exampleRoleReconciler exampleSys 0 exampleRole true rfl rfl rfl).1 rfl
    (fun hd => hd.2 (by decide))

/-- C6: let the disruption-budget step, if the role's config block declares one
(`b` is true), be done, and split the declared groups, in the order of the
pass, into `pre` and `rest`, where every group of `pre` has a config block in
its override or in the role. The pass starts the groups in the state `s0` (the
state of the call, after the step if there is one). The reference run of `pre`
from `s0` returns, with the outcomes `outs` that the collaborator
`ReconcileGroup` reported and the state `s2`. When all of `outs` are done:
if `rest` is empty, `ReconcileRole` returns done with no error, in state `s2`;
if `rest` is a group `g` followed by `post`, and `g` has a config block,
its reconciler is built, and when `ReconcileGroup` reports for it an outcome
that is not done, `ReconcileRole` returns that outcome (the error with an
empty result, or else the pending result as it is) in the state right after
that call: the groups reconciled are those of `pre` and `g`, and no group of
`post` is reconciled or even built. -/
theorem ReconcileRole_first_not_done {W : Type} (ToLower : String → String) (env : Env W)
    (r : Role) (s : Sys W) (ra : Addr) (role : ServerSpec) (b : Bool)
    (pre rest : List (String × Addr))
    (hinv : RoleInv s.heap r ra role) (hd : Role.declaresPDB s.heap role = .ok b)
    (hpdb : b = true →
      (env.ReconcileResource
        (common.NewReconcilePDB r.Labels common.Server role.PodDisruptionBudget)
        s.heap s.world).1.Done)
    (hsplit : role.RoleGroups = pre ++ rest)
    (hcfg : ∀ p ∈ pre, HasConfig s.heap role p.1) :
    ∃ s0 outs s2,
      (b = false → s0 = s) ∧
      (b = true → s0 =
        { heap := s.heap,
          world := (env.ReconcileResource
            (common.NewReconcilePDB r.Labels common.Server role.PodDisruptionBudget)
            s.heap s.world).2,
          trace := s.trace ++
            [Event.resource
              (common.NewReconcilePDB r.Labels common.Server role.PodDisruptionBudget)
              (env.ReconcileResource
                (common.NewReconcilePDB r.Labels common.Server role.PodDisruptionBudget)
                s.heap s.world).1] }) ∧
      invokeGroups ToLower env r (pre.map Prod.fst) s0 = .ok (outs, s2) ∧
      outs.length = pre.length ∧
      s2.trace = s0.trace ++ List.zipWith Event.group (pre.map Prod.fst) outs ∧
      ((∀ o ∈ outs, o.Done) →
        (rest = [] → r.ReconcileRole ToLower env s = .ok ((Result.empty, none), s2)) ∧
        (∀ g post, rest = g :: post → HasConfig s.heap role g.1 →
          ∃ gr h1,
            NewRoleGroupReconciler ToLower s2.heap r.Instance g.1 r.Labels = .ok (gr, h1) ∧
            (¬ (env.ReconcileGroup gr h1 s2.world).1.Done →
              r.ReconcileRole ToLower env s =
                .ok ((env.ReconcileGroup gr h1 s2.world).1.propagated,
                  { heap := h1, world := (env.ReconcileGroup gr h1 s2.world).2,
                    trace := s2.trace ++
                      [Event.group g.1 (env.ReconcileGroup gr h1 s2.world).1] })))) := by
  have hgate := ReconcileRole_after_step ToLower env r s ra role b hinv.server hinv.roleCell hd
  have key : ∀ s0 : Sys W, s0.heap = s.heap →
      r.ReconcileRole ToLower env s = reconcileGroups ToLower env r role.RoleGroups s0 →
      ∃ outs s2,
        invokeGroups ToLower env r (pre.map Prod.fst) s0 = .ok (outs, s2) ∧
        outs.length = pre.length ∧
        s2.trace = s0.trace ++ List.zipWith Event.group (pre.map Prod.fst) outs ∧
        ((∀ o ∈ outs, o.Done) →
          (rest = [] → r.ReconcileRole ToLower env s = .ok ((Result.empty, none), s2)) ∧
          (∀ g post, rest = g :: post → HasConfig s.heap role g.1 →
            ∃ gr h1,
              NewRoleGroupReconciler ToLower s2.heap r.Instance g.1 r.Labels = .ok (gr, h1) ∧
              (¬ (env.ReconcileGroup gr h1 s2.world).1.Done →
                r.ReconcileRole ToLower env s =
                  .ok ((env.ReconcileGroup gr h1 s2.world).1.propagated,
                    { heap := h1, world := (env.ReconcileGroup gr h1 s2.world).2,
                      trace := s2.trace ++
                        [Event.group g.1 (env.ReconcileGroup gr h1 s2.world).1] })))) := by
    intro s0 hheap hrole
    have hinv0 : RoleInv s0.heap r ra role := by rw [hheap]; exact hinv
    have hsub : ∀ p ∈ pre, p ∈ role.RoleGroups := by
      intro p hp
      rw [hsplit]
      exact List.mem_append_left _ hp
    obtain ⟨outs, s2, hrun, hinv2, hx, hlen, htr⟩ :=
      invokeGroups_ok ToLower env r ra role pre hsub s0 hinv0 (by rw [hheap]; exact hcfg)
    refine ⟨outs, s2, hrun, hlen, htr, ?_⟩
    intro hdone
    have hcont := reconcileGroups_after_done ToLower env r pre rest s0 s2 outs hrun hdone
    rw [← hsplit] at hcont
    refine ⟨?_, ?_⟩
    · intro hrest
      rw [hrole, hcont, hrest]
      rfl
    · intro g post hrest hg
      have hgm : g ∈ role.RoleGroups := by
        rw [hsplit, hrest]
        exact List.mem_append_right _ (List.mem_cons_self _ _)
      have hx0 : s.heap.Extends s2.heap := by rw [← hheap]; exact hx
      obtain ⟨gr, h1, hnew, -, -⟩ :=
        NewRoleGroupReconciler_ok ToLower hinv2 hgm (hasConfig_extends hinv hx0 hg)
      refine ⟨gr, h1, hnew, ?_⟩
      intro hnd
      rw [hrole, hcont, hrest]
      exact reconcileGroups_stop ToLower env r g post s2 gr h1 hnew hnd
  cases b with
  | false =>
    obtain ⟨outs, s2, h1, h2, h3, h4⟩ := key s rfl (hgate.2 rfl)
    exact ⟨s, outs, s2, fun _ => rfl, fun hb => absurd hb (by decide), h1, h2, h3, h4⟩
  | true =>
    obtain ⟨outs, s2, h1, h2, h3, h4⟩ := key
      { heap := s.heap,
        world := (env.ReconcileResource
          (common.NewReconcilePDB r.Labels common.Server role.PodDisruptionBudget)
          s.heap s.world).2,
        trace := s.trace ++
          [Event.resource
            (common.NewReconcilePDB r.Labels common.Server role.PodDisruptionBudget)
            (env.ReconcileResource
              (common.NewReconcilePDB r.Labels common.Server role.PodDisruptionBudget)
              s.heap s.world).1] } rfl (hgate.1 rfl (hpdb rfl))
    exact ⟨_, outs, s2, fun hb => absurd hb (by decide), fun _ => rfl, h1, h2, h3, h4⟩

theorem mixedHeap_closed : mixedHeap.Closed := ⟨by decide, by decide, by decide, by decide⟩

/-- C6 at a store with two groups, where reconciling any group reports the
error boom: the pass returns that error after the group first, which is the
only call. The group second is not reconciled; it has no config block in its
override or in the role, so that building its reconciler would have stopped
the pass. -/
theorem ReconcileRole_first_not_done_witness :
    ∃ h1, Role.ReconcileRole asciiLower
        (fixedEnv doneOutcome (fun _ => (Result.empty, some "boom")))
        mixedRoleReconciler mixedSys =
      .ok ((Result.empty, some "boom"),
        { heap := h1, world := (),
          trace := [Event.group "first" (Result.empty, some "boom")] }) := by
  obtain ⟨s0, outs, s2, hs0, -, hrun, -, -, hres⟩ :=
    ReconcileRole_first_not_done asciiLower
      (fixedEnv doneOutcome (fun _ => (Result.empty, some "boom")))
      mixedRoleReconciler mixedSys 0 mixedRole false [] mixedRole.RoleGroups
      ⟨mixedHeap_closed, rfl, rfl, by decide⟩ rfl (fun hb => absurd hb (by decide)) rfl
      (by intro p hp; cases hp)
  have hs : s0 = mixedSys := hs0 rfl
  subst hs
  simp only [List.map_nil, invokeGroups] at hrun
  cases hrun
  obtain ⟨gr, h1, -, himp⟩ := (hres (by intro o ho; cases ho)).2 ("first", 0) [("second", 1)] rfl
    (by
      intro ga hga g hg
      cases hga
      cases hg
      decide)
  exact ⟨h1, himp (fun hdone => Option.some_ne_none "boom" hdone.1)⟩

/-- The pass over the example store when the disruption-budget step and the
group default are done and the group Analytics reports the error boom: the
error is returned, after the step and both groups, in that order. -/
theorem ReconcileRole_second_group_error :
    (Role.ReconcileRole asciiLower
        (fixedEnv doneOutcome
          (fun n => if n = "Analytics" then (Result.empty, some "boom") else doneOutcome))
        exampleRoleReconciler exampleSys).toOption.map (fun x => (x.1, x.2.trace)) =
      some ((Result.empty, some "boom"),
        [Event.resource (ResourceReconciler.PDB (some 1) "server" none) doneOutcome,
         Event.group "default" doneOutcome,
         Event.group "Analytics" (Result.empty, some "boom")]) := by
  decide

/-- With a nil override nothing is copied or merged; when the role has no
config block, the test of line 148 stops at its first operand and
`mergeConfig` returns nil. -/
theorem mergeConfig_nil_override (h : Heap) (ra : Addr) (role : ServerSpec)
    (hr : h.servers[ra]? = some role) (hrc : role.Config = none) :
    mergeConfig h (some ra) none = .ok (none, h) := by
  simp [mergeConfig, RoleGroupSpec.DeepCopy, MergeObjects, load, hr, hrc]

/-- With a nil override and a role that has a config block, the test of
line 148 reads `copiedRoleGroup.Config` on the nil copy. -/
theorem mergeConfig_nil_override_fault (h : Heap) (ra rc : Addr) (role : ServerSpec)
    (hr : h.servers[ra]? = some role) (hrc : role.Config = some rc) :
    mergeConfig h (some ra) none = .error .nilPointerDereference := by
  simp [mergeConfig, RoleGroupSpec.DeepCopy, MergeObjects, load, hr, hrc]

end Clustercontroller
